import Mathlib

/-!
Verification of the table-reconstruction and cross-document reconciliation
engine (`reconciller.py`) against its natural-language specification.

The Python source is embedded shallowly:
* PDF word tuples `(x0, y0, x1, y1, text)` become the structure `Word`
  with rational coordinates;
* pandas DataFrames of header/column pairs become `DFrame`;
* the per-policy aggregation rows become `Agg`;
* fallible per-document extraction becomes `Except String (List PolicyRecord)`.

Numeric cells are parsed into `ℚ`; Python's float arithmetic on the
premium sums is modelled exactly (the reconciliation only adds, compares
and divides by small integers, so exact rational arithmetic is the
intended reading of the spec's `decimal` premiums).
-/

namespace Reconciller

/-- A positioned text token, as produced by `page.get_text("words")`:
the tuple `(x0, y0, x1, y1, text)` of the Python source. -/
structure Word where
  x0 : ℚ
  y0 : ℚ
  x1 : ℚ
  y1 : ℚ
  text : String
deriving DecidableEq

/-- One extracted `(pdf, page, policy_number, premium)` row, the dict
appended to `all_data` in `extract_policies_and_premiums`. -/
structure PolicyRecord where
  pdf : String
  page : ℕ
  policy : String
  premium : ℚ
deriving DecidableEq

/-- One row of the per-document aggregate produced by `aggregate_pdfs`:
`{policy_number, premium (summed), balanced}`. -/
structure Agg where
  policy : String
  premium : ℚ
  balanced : Bool
deriving DecidableEq

/-! ## Aggregation (`aggregate_pdfs`)

`df.groupby("policy_number")["premium"].sum()` sums the premium of every
record sharing a policy number.  (pandas orders the groups by sorted key;
the key order is immaterial to every property below, which looks rows up
by policy number, so the embedding keeps first-occurrence order.) -/

/-- The per-policy premium sum inside one document:
`df.groupby("policy_number")["premium"].sum()` restricted to policy `p`. -/
def premiumTotal (records : List PolicyRecord) (p : String) : ℚ :=
  ((records.filter (fun r => r.policy = p)).map (·.premium)).sum

/-- `aggregate_pdfs` for a single document: group the extracted records by
policy number, sum premiums, and initialise `balanced := False`. -/
def aggregate_pdfs (records : List PolicyRecord) : List Agg :=
  ((records.map (·.policy)).dedup).map (fun p => ⟨p, premiumTotal records p, false⟩)

/-! ## The matcher (`update_balanced_status`) -/

/-- `df.set_index("policy_number")["premium"]` used as a lookup map:
`map2[p]` is the premium of the (unique) aggregate row for `p`, or
missing (`NaN`) when `p` is absent. -/
def lookupPremium (df : List Agg) (p : String) : Option ℚ :=
  (df.find? (fun a => a.policy = p)).map (·.premium)

/-- `update_balanced_status(df1, df2)`:
`df1["balanced"] |= df1["policy_number"].map(map2) == df1["premium"]`
and symmetrically; a missing lookup (`NaN`) compares unequal. -/
def update_balanced_status (df1 df2 : List Agg) : List Agg × List Agg :=
  (df1.map (fun a =>
      { a with balanced := a.balanced || lookupPremium df2 a.policy = some a.premium }),
   df2.map (fun a =>
      { a with balanced := a.balanced || lookupPremium df1 a.policy = some a.premium }))

/-! ## Discrepancy set (`highlight_unbalanced_policies`, selection part) -/

/-- The flagged set of `highlight_unbalanced_policies`:
`set(df[(~df["balanced"]) & (df["premium"] > 0)]["policy_number"])`. -/
def unbalancedPolicies (df : List Agg) : List String :=
  (df.filter (fun a => !a.balanced && 0 < a.premium)).map (·.policy)

/-! ## String helpers

`String.trim`-style operations are re-expressed over `List Char` (the
`String` representation) so that every definition is executable by the
kernel. -/

/-- Python `str.strip()`: drop leading and trailing whitespace. -/
def pyStrip (s : String) : String :=
  ⟨((s.toList.dropWhile Char.isWhitespace).reverse.dropWhile Char.isWhitespace).reverse⟩

/-- A character matched by the class `[A-Z0-9]` of `POLICY_PATTERN`. -/
def isPolicyChar (c : Char) : Bool :=
  ('A' ≤ c && c ≤ 'Z') || ('0' ≤ c && c ≤ '9')

/-- `POLICY_PATTERN.search` on a character list: find the first position
whose maximal run of `[A-Z0-9]` characters has length at least 6 and
return that (greedy, leftmost) run. -/
def searchRun : List Char → Option (List Char)
  | [] => none
  | c :: cs =>
    let run := (c :: cs).takeWhile isPolicyChar
    if 6 ≤ run.length then some run else searchRun cs

/-- `POLICY_PATTERN.search(s)` returning `match.group(0)`. -/
def policySearch (s : String) : Option String :=
  (searchRun s.toList).map (fun l => ⟨l⟩)

/-- A string that is itself a full `POLICY_PATTERN` match: at least six
characters, all uppercase alphanumerics. -/
def isPolicyShaped (p : String) : Bool :=
  6 ≤ p.length && p.toList.all isPolicyChar

/-- Whether the string ends with the literal characters `".00"`
(`col_clean.str.endswith(".00")`). -/
def endsWithDot00 (s : String) : Bool :=
  s.toList.reverse.take 3 = ['0', '0', '.']

/-! ## Numeric cell parsing

`pd.to_numeric(..., errors="coerce")` on the decimal-literal strings this
pipeline feeds it (optional sign, digits, optional fractional part);
anything else coerces to `NaN`, modelled as `none`.  pandas tolerates
surrounding whitespace, so callers strip first. -/

def digitVal (c : Char) : ℕ := c.toNat - '0'.toNat

def digitsToNat (l : List Char) : ℕ := l.foldl (fun acc c => 10 * acc + digitVal c) 0

/-- Parse a decimal literal to an exact rational, or `none` (`NaN`):
an optional sign, an integer part, and an optional `.`-separated
fractional part, with at least one digit overall. -/
def parseDecimal (s : String) : Option ℚ :=
  let cs0 := s.toList
  let isNeg := cs0.head? = some '-'
  let sign : ℚ := if isNeg then -1 else 1
  let cs := if isNeg ∨ cs0.head? = some '+' then cs0.tail else cs0
  let intPart := cs.takeWhile Char.isDigit
  let rest := cs.drop intPart.length
  if rest = [] then
    if intPart = [] then none
    else some (sign * (digitsToNat intPart : ℚ))
  else if rest.head? = some '.' then
    let frac := rest.tail
    if frac.all Char.isDigit ∧ (intPart ≠ [] ∨ frac ≠ []) then
      some (sign * ((digitsToNat intPart : ℚ) + (digitsToNat frac : ℚ) / (10 : ℚ) ^ frac.length))
    else none
  else none

/-- Drop every `$` and `,`: `.str.replace(r"[$,]", "", regex=True)`. -/
def stripMoney (s : String) : String :=
  ⟨s.toList.filter (fun c => !(c = '$' || c = ','))⟩

/-- The premium field of an accepted row:
`pd.to_numeric(premium.str.replace(r"[$,]", ""), errors="coerce").fillna(0)`. -/
def parsePremiumField (s : String) : ℚ :=
  (parseDecimal (pyStrip (stripMoney s))).getD 0

/-! ## Policy cleanup (`clean_policy`) and row extraction -/

/-- `clean_policy(text)` of `extract_policies_and_premiums`: strip, apply
the Intact-specific normalization (drop blanks, a three-letter alphabetic
issuer code, and a trailing `H`), and search for `POLICY_PATTERN`. -/
def clean_policy (isIntact : Bool) (s : String) : Option String :=
  let t := pyStrip s
  let t :=
    if isIntact then
      let u := t.toList.filter (fun c => c ≠ ' ')     -- text.replace(" ", "")
      if 3 < u.length ∧ (u.take 3).all Char.isAlpha   -- text[:3].isalpha()
      then (⟨u.drop 3⟩ : String) else (⟨u⟩ : String)
    else t
  match policySearch t with
  | none => none
  | some p =>
    let pc := p.toList
    if isIntact && pc.getLast? = some 'H'             -- policy.endswith("H")
    then some ⟨pc.dropLast⟩ else some p

/-- One data row of an accepted table: clean the policy cell (a `none`
is dropped by `df.dropna()`), and keep the row with a premium of `0`
when the premium cell does not parse (`fillna(0)`). -/
def rowToRecord (isIntact : Bool) (pdf : String) (page : ℕ) (pi pj : ℕ)
    (row : List String) : Option PolicyRecord :=
  match clean_policy isIntact (row.getD pi "") with
  | none => none
  | some p => some ⟨pdf, page, p, parsePremiumField (row.getD pj "")⟩

/-! ## DataFrames and the column-role classifiers

`extract_table_from_bbox` turns a reconstructed table into a DataFrame:
`headers` holds the (disambiguated) labels of the header row and `rows`
the data rows.  Column selection `df[col]` is modelled positionally; the
classifiers' label-to-position `get_loc` step is exact under the
distinct-label hypothesis of the theorems below (with duplicate labels
pandas returns a sub-DataFrame and the source's `isinstance` guard skips
the column, a situation the header disambiguation rules out). -/

structure DFrame where
  headers : List String
  rows : List (List String)

/-- The cells of column `j` (`df[col]` as a Series). -/
def DFrame.col (df : DFrame) (j : ℕ) : List String :=
  df.rows.map (fun r => r.getD j "")

/-- The `extract_policy` helper of `find_policy_column`: `str(text).strip()`
then `POLICY_PATTERN.search`. -/
def extractPolicy (s : String) : Option String := policySearch (pyStrip s)

/-- `series.apply(extract_policy).dropna().nunique()`. -/
def uniquePolicyCount (cells : List String) : ℕ :=
  ((cells.filterMap extractPolicy).dedup).length

/-- The candidate-selection fold of `find_policy_column`: carry the best
label and its distinct-match count, replacing them only when a column
clears `min_unique = 2` and strictly beats the carried count. -/
def policyFold (u : ℕ → ℕ) (acc : Option String × ℕ) (l : List (ℕ × String)) :
    Option String × ℕ :=
  l.foldl (fun acc ih =>
    if 2 ≤ u ih.1 ∧ acc.2 < u ih.1 then (some ih.2, u ih.1) else acc) acc

/-- `find_policy_column(df, min_unique=2)`.  The final
`df.columns.get_loc(best_col) if best_col else None` treats an empty
label as falsy, hence the `h = ""` branch. -/
def find_policy_column (df : DFrame) : Option ℕ :=
  let best := policyFold (fun i => uniquePolicyCount (df.col i)) (none, 0)
    df.headers.enum
  match best.1 with
  | none => none
  | some h => if h = "" then none else some (List.indexOf h df.headers)

/-- `.str.strip()` then `.str.replace(r"[%\s$,]", "", regex=True)`. -/
def cleanMoneyCell (s : String) : String :=
  ⟨(pyStrip s).toList.filter (fun c => !(c = '%' || c = '$' || c = ',' || c.isWhitespace))⟩

/-- One cell of `col_numeric.where(col_clean.str.endswith(".00"))`: the
parsed value when the cleaned text parses as a number and ends in the
literal `".00"`, else `NaN`. -/
def premiumCellValue (s : String) : Option ℚ :=
  match parseDecimal (cleanMoneyCell s) with
  | none => none
  | some v => if endsWithDot00 (cleanMoneyCell s) then some v else none

/-- The non-`NaN` entries of a premium-candidate column. -/
def premiumValues (cells : List String) : List ℚ :=
  cells.filterMap premiumCellValue

/-- Python's `max(candidates.items(), key=lambda x: x[1]["max_value"])`:
the first maximal entry in insertion order. -/
def pickMaxCand (l : List (String × ℚ)) : Option (String × ℚ) :=
  match l with
  | [] => none
  | c :: cs => some (cs.foldl (fun best x => if best.2 < x.2 then x else best) c)

/-- The `candidates` dict of `find_premium_column`: a column enters when
it has at least one counting cell (`count > 0`, i.e. a non-empty value
list), keyed by label and carrying `max_value`, in column order. -/
def premiumCands (df : DFrame) : List (String × ℚ) :=
  df.headers.enum.filterMap (fun ih =>
    match (premiumValues (df.col ih.1)).max? with
    | some m => some (ih.2, m)
    | none => none)

/-- `find_premium_column(df)`: the winner is the candidate with the
largest column maximum. -/
def find_premium_column (df : DFrame) : Option ℕ :=
  match pickMaxCand (premiumCands df) with
  | none => none
  | some c => some (List.indexOf c.1 df.headers)

/-- The records contributed by one table of one page
(`extract_policies_and_premiums` after `extract_table_from_bbox`): when
either classifier returns no winner the whole table is discarded. -/
def tableRecords (isIntact : Bool) (pdf : String) (page : ℕ) (df : DFrame) :
    List PolicyRecord :=
  match find_policy_column df, find_premium_column df with
  | some pi, some pj => df.rows.filterMap (rowToRecord isIntact pdf page pi pj)
  | _, _ => []

/-! ## Table geometry: row clustering, column detection, table building

Coordinates are exact rationals; `round` is Python's round-half-to-even. -/

/-- Python's `round` on exact values: round half to even. -/
def pyRound (q : ℚ) : ℤ :=
  let f := ⌊q⌋
  let r := q - f
  if r < 1 / 2 then f
  else if 1 / 2 < r then f + 1
  else if f % 2 = 0 then f else f + 1

/-- The vertical center `(w[1] + w[3]) / 2` of a word. -/
def wCenter (w : Word) : ℚ := (w.y0 + w.y1) / 2

/-- `sorted(words, key=lambda x: x[1])` — a stable sort by top edge. -/
def sortByY (ws : List Word) : List Word :=
  List.insertionSort (fun a b => a.y0 ≤ b.y0) ws

/-- A row cluster: the current center `row["y"]` and `row["words"]`. -/
structure TRow where
  y : ℚ
  words : List Word
deriving DecidableEq

/-- One insertion step of the `detect_columns` row clusterer: attach the
word to the first row whose center is within tolerance 4, recomputing
that row's center as the mean of its members' centers, else start a new
row at the end. -/
def rowInsertMean (rows : List TRow) (w : Word) : List TRow :=
  match rows with
  | [] => [⟨wCenter w, [w]⟩]
  | r :: rs =>
    if |wCenter w - r.y| ≤ 4 then
      ⟨(((r.words ++ [w]).map wCenter).sum) / ((r.words ++ [w]).length : ℚ),
        r.words ++ [w]⟩ :: rs
    else r :: rowInsertMean rs w

/-- The row clusterer of `detect_columns`. -/
def clusterRowsMean (ws : List Word) : List TRow :=
  (sortByY ws).foldl rowInsertMean []

/-- One insertion step of the `build_table` row clusterer: identical,
except that the row's center is left unchanged on attachment. -/
def rowInsertFixed (rows : List TRow) (w : Word) : List TRow :=
  match rows with
  | [] => [⟨wCenter w, [w]⟩]
  | r :: rs =>
    if |wCenter w - r.y| ≤ 4 then ⟨r.y, r.words ++ [w]⟩ :: rs
    else r :: rowInsertFixed rs w

/-- The row clusterer of `build_table`. -/
def clusterRowsFixed (ws : List Word) : List TRow :=
  (sortByY ws).foldl rowInsertFixed []

/-- `round(w[0] / X_ROUNDING) * X_ROUNDING` with `X_ROUNDING = 10`. -/
def roundedX (w : Word) : ℤ := pyRound (w.x0 / 10) * 10

/-- The distinct rounded x-positions of one row (the `seen_x` set). -/
def rowRoundedXs (r : TRow) : List ℤ := (r.words.map roundedX).dedup

/-- `x_counts[x]`: in how many rows position `x` occurs. -/
def xRowCount (rows : List TRow) (x : ℤ) : ℕ :=
  rows.countP (fun r => (rowRoundedXs r).contains x)

/-- The keys of `x_counts`: every rounded position of the region. -/
def allRoundedXs (rows : List TRow) : List ℤ :=
  (rows.flatMap rowRoundedXs).dedup

/-- `threshold = max(2, len(rows) * MIN_ROW_FREQUENCY)` with
`MIN_ROW_FREQUENCY = 0.3`. -/
def detectThreshold (rows : List TRow) : ℚ :=
  max 2 ((rows.length : ℚ) * (3 / 10))

/-- `columns = sorted([x for x, count ... if count >= threshold])`. -/
def survivorColumns (rows : List TRow) : List ℤ :=
  List.insertionSort (fun a b => a ≤ b)
    ((allRoundedXs rows).filter
      (fun x => detectThreshold rows ≤ (xRowCount rows x : ℚ)))

/-- One step of the merge pass, with the accumulator reversed so its
head is the source's `merged[-1]`: append when the gap reaches
`COLUMN_MERGE_DISTANCE = 40`, else replace the last kept position by the
midpoint. -/
def mergeFold (acc : List ℚ) (x : ℚ) : List ℚ :=
  match acc with
  | [] => [x]
  | m :: ms => if 40 ≤ x - m then x :: m :: ms else ((m + x) / 2) :: ms

/-- The single left-to-right merge pass of `detect_columns`. -/
def mergeColumns (xs : List ℤ) : List ℚ :=
  (xs.foldl (fun acc (x : ℤ) => mergeFold acc (x : ℚ)) []).reverse

/-- `detect_columns(words)`. -/
def detect_columns (ws : List Word) : List ℚ :=
  if ws = [] then []
  else mergeColumns (survivorColumns (clusterRowsMean ws))

/-- `distances.index(min(distances))`: the first column index at minimal
absolute distance from `x` (left edge). -/
def nearestIdx (x : ℚ) (cols : List ℚ) : ℕ :=
  match (cols.map (fun c => |x - c|)).min? with
  | some d => (cols.map (fun c => |x - c|)).indexOf d
  | none => 0

/-- `distances[closest]` = `min(distances)`. -/
def nearestDist (x : ℚ) (cols : List ℚ) : ℚ :=
  match (cols.map (fun c => |x - c|)).min? with
  | some d => d
  | none => 0

/-- The per-row cell assembly of `build_table`: `col_data[i]` collects,
in row-word order, the words whose nearest column is `i` at distance
strictly below 40, then cells are space-joined. -/
def rowCells (rws : List Word) (cols : List ℚ) : List String :=
  (List.range cols.length).map (fun i =>
    String.intercalate " " ((rws.filter (fun w =>
      nearestIdx w.x0 cols = i ∧ nearestDist w.x0 cols < 40)).map (·.text)))

/-- `build_table(words, columns)`: re-cluster rows (fixed centers), sort
rows by center, assemble cells. -/
def build_table (ws : List Word) (cols : List ℚ) : List (List String) :=
  (List.insertionSort (fun a b : TRow => a.y ≤ b.y) (clusterRowsFixed ws)).map
    (fun r => rowCells r.words cols)

/-- The claim side of C7, following the spec's words: a token belongs to
cell `(r, c)` when `c` is its first nearest column by absolute
x-distance and that distance does not exceed 40, and cells join the
assigned tokens in left-to-right order. -/
def buildTableClaimed (ws : List Word) (cols : List ℚ) : List (List String) :=
  (List.insertionSort (fun a b : TRow => a.y ≤ b.y) (clusterRowsFixed ws)).map
    (fun r => (List.range cols.length).map (fun c =>
      String.intercalate " "
        (((List.insertionSort (fun a b : Word => a.x0 ≤ b.x0) r.words).filter
          (fun w => nearestIdx w.x0 cols = c ∧ nearestDist w.x0 cols ≤ 40)).map
            (·.text))))

/-- The extensional assignment predicate (the spec's words for C7, with
the code's strict bound): `c` is a column index whose distance from the
token's left edge is minimal, no earlier column attains it, and the
distance is strictly below 40. -/
def firstNearestWithin (cols : List ℚ) (w : Word) (c : ℕ) : Prop :=
  c < cols.length
  ∧ (∀ j < cols.length, |w.x0 - cols.getD c 0| ≤ |w.x0 - cols.getD j 0|)
  ∧ (∀ j < c, |w.x0 - cols.getD c 0| < |w.x0 - cols.getD j 0|)
  ∧ |w.x0 - cols.getD c 0| < 40

instance (cols : List ℚ) (w : Word) (c : ℕ) :
    Decidable (firstNearestWithin cols w c) := by
  unfold firstNearestWithin
  infer_instance

/-- Sample tokens for the C7 analysis: `A` and `B` share a cell but
appear in vertical, not left-to-right, order; `C` sits at distance
exactly 40 from the second column. -/
def cexWords : List Word :=
  [⟨5, 10, 6, 10, "A"⟩, ⟨0, 21 / 2, 1, 21 / 2, "B"⟩, ⟨140, 10, 141, 10, "C"⟩]

/-- Sample columns for the C7 analysis. -/
def cexCols : List ℚ := [0, 100]

/-! ## Per-document extraction outcomes and pairing
(`find_matching_pdfs_by_policy`)

Opening and reading a PDF (`fitz.open`, page iteration) is an external
effect that either raises or yields the extracted records, so a document
is embedded together with its extraction outcome.  The caller's loop
`df = extract_policies_and_premiums(pdf)` has no `try/except`; exception
propagation is modelled by `Except`. -/

structure PDFDoc where
  name : String
  content : Except String (List PolicyRecord)

/-- Whether a document survives the `if not df.empty` guard: it reads
successfully and yields at least one record. -/
def keepsRecords (d : PDFDoc) : Bool :=
  match d.content with
  | .ok rs => !rs.isEmpty
  | .error _ => true

/-- `extract_policies_and_premiums(pdf)`: yields the document's records
or raises (its recorded outcome). -/
def extractOutcome (d : PDFDoc) : Except String (List PolicyRecord) :=
  d.content

/-- The `pdf_policies` dict of `find_matching_pdfs_by_policy`: one entry
per document whose extraction is non-empty (`if not df.empty`), holding
its distinct policy numbers; the first raising document aborts the whole
computation, since the loop has no `try/except`. -/
def pdfPolicies : List PDFDoc → Except String (List (String × List String))
  | [] => .ok []
  | d :: ds =>
    match extractOutcome d with
    | .error e => .error e
    | .ok recs =>
      match pdfPolicies ds with
      | .error e => .error e
      | .ok rest =>
        .ok (if recs = [] then rest
          else (d.name, (recs.map (·.policy)).dedup) :: rest)

/-- Non-empty intersection of two documents' policy sets
(`pdf_policies[p1] & pdf_policies[p2]`). -/
def sharesPolicy (ps qs : List String) : Bool :=
  ps.any (fun p => qs.contains p)

/-- `itertools.combinations(..., 2)` filtered to pairs sharing a policy. -/
def pairsOf : List (String × List String) → List (String × String)
  | [] => []
  | e :: rest =>
    (rest.filterMap (fun e2 =>
      if sharesPolicy e.2 e2.2 then some (e.1, e2.1) else none)) ++ pairsOf rest

/-- `find_matching_pdfs_by_policy(folder)` over the folder's documents. -/
def find_matching_pdfs_by_policy (docs : List PDFDoc) :
    Except String (List (String × String)) :=
  match pdfPolicies docs with
  | .error e => .error e
  | .ok entries => .ok (pairsOf entries)

/-! ## Highlighting (`highlight_unbalanced_policies`, marking part) -/

/-- The per-word test of the highlight loop: strip the word text, search
`POLICY_PATTERN`, and check membership of the match in the flagged set. -/
def highlightWordTest (unbalanced : List String) (w : Word) : Bool :=
  match policySearch (pyStrip w.text) with
  | some m => unbalanced.contains m
  | none => false

/-- The words of the document that receive a highlight annotation. -/
def highlightedWords (words : List Word) (df : List Agg) : List Word :=
  if unbalancedPolicies df = [] then []               -- `if unbalanced:` guard
  else words.filter (highlightWordTest (unbalancedPolicies df))

/-! ### Helper lemmas -/

theorem lookupPremium_eq_some {df : List Agg} {p : String} {v : ℚ}
    (h : (df.map (·.policy)).Nodup) :
    lookupPremium df p = some v ↔ ∃ b ∈ df, b.policy = p ∧ b.premium = v := by
  unfold lookupPremium
  constructor
  · intro hf
    rcases Option.map_eq_some'.mp hf with ⟨b, hb, hv⟩
    exact ⟨b, List.mem_of_find?_eq_some hb, by
      simpa using List.find?_some hb, hv⟩
  · rintro ⟨b, hb, hp, hv⟩
    have hex : (df.find? (fun a => a.policy = p)).isSome := by
      apply List.find?_isSome.mpr
      exact ⟨b, hb, by simpa using hp⟩
    rcases Option.isSome_iff_exists.mp hex with ⟨b', hb'⟩
    have hb'mem : b' ∈ df := List.mem_of_find?_eq_some hb'
    have hb'p : b'.policy = p := by simpa using List.find?_some hb'
    -- distinct policies force b' = b
    have hbb : b' = b :=
      List.inj_on_of_nodup_map h hb'mem hb (by simp [hb'p, hp])
    subst hbb
    rw [hb']
    simp [hv]

theorem not_whitespace_of_policyChar {c : Char} (h : isPolicyChar c = true) :
    c.isWhitespace = false := by
  simp only [isPolicyChar, Bool.or_eq_true, Bool.and_eq_true, decide_eq_true_eq] at h
  have hge : '0' ≤ c := by
    rcases h with ⟨h1, _⟩ | ⟨h1, _⟩
    · exact le_trans (by decide) h1
    · exact h1
  simp only [Char.isWhitespace, Bool.or_eq_false_iff, decide_eq_false_iff_not]
  refine ⟨⟨⟨?_, ?_⟩, ?_⟩, ?_⟩ <;> rintro rfl <;> revert hge <;> decide

theorem dropWhile_ws_eq_self {l : List Char}
    (h : ∀ c ∈ l, isPolicyChar c = true) :
    l.dropWhile Char.isWhitespace = l := by
  cases l with
  | nil => rfl
  | cons c cs =>
    rw [List.dropWhile_cons,
      not_whitespace_of_policyChar (h c (List.mem_cons_self c cs))]
    simp

theorem pyStrip_shaped {p : String} (h : isPolicyShaped p = true) : pyStrip p = p := by
  rw [isPolicyShaped, Bool.and_eq_true] at h
  have hall : ∀ c ∈ p.toList, isPolicyChar c = true := by
    simpa [List.all_eq_true] using h.2
  unfold pyStrip
  rw [dropWhile_ws_eq_self hall,
    dropWhile_ws_eq_self (fun c hc => hall c (List.mem_reverse.mp hc)),
    List.reverse_reverse]
  rfl

theorem policySearch_shaped {p : String} (h : isPolicyShaped p = true) :
    policySearch p = some p := by
  rw [isPolicyShaped, Bool.and_eq_true, decide_eq_true_eq] at h
  obtain ⟨hlen, hall⟩ := h
  unfold policySearch
  cases hl : p.toList with
  | nil =>
    exfalso
    have : p.length = 0 := by
      show p.toList.length = 0
      rw [hl]; rfl
    omega
  | cons c cs =>
    have hallcc : ∀ x ∈ c :: cs, isPolicyChar x = true := by
      rw [← hl]; simpa [List.all_eq_true] using hall
    have htake : (c :: cs).takeWhile isPolicyChar = c :: cs :=
      List.takeWhile_eq_self_iff.mpr hallcc
    have hlength : 6 ≤ (c :: cs).length := by
      have : p.length = (c :: cs).length := by
        show p.toList.length = _
        rw [hl]
      omega
    rw [searchRun, htake]
    rw [if_pos hlength]
    simp only [Option.map_some']
    congr
    rw [← hl]
    rfl

theorem policyFold_spec (u : ℕ → ℕ) :
    ∀ (l : List (ℕ × String)) (acc : Option String × ℕ),
      (acc.1 = none → acc.2 = 0) →
      (((policyFold u acc l).1 = none ↔ acc.1 = none ∧ ∀ p ∈ l, u p.1 < 2)
      ∧ acc.2 ≤ (policyFold u acc l).2
      ∧ (∀ q ∈ l, 2 ≤ u q.1 → u q.1 ≤ (policyFold u acc l).2)
      ∧ (∀ h, (policyFold u acc l).1 = some h →
          (acc.1 = some h ∧ (policyFold u acc l).2 = acc.2)
          ∨ ∃ p ∈ l, p.2 = h ∧ (policyFold u acc l).2 = u p.1 ∧ 2 ≤ u p.1)) := by
  intro l
  induction l with
  | nil =>
    intro acc h0
    refine ⟨by simp [policyFold], le_refl _, by simp, ?_⟩
    intro h hh
    exact Or.inl ⟨hh, rfl⟩
  | cons p l ih =>
    intro acc h0
    by_cases hc : 2 ≤ u p.1 ∧ acc.2 < u p.1
    · have hstep : policyFold u acc (p :: l) = policyFold u (some p.2, u p.1) l := by
        simp [policyFold, hc]
      obtain ⟨ih1, ih2, ih3, ih4⟩ := ih (some p.2, u p.1) (by simp)
      rw [hstep]
      refine ⟨?_, ?_, ?_, ?_⟩
      · constructor
        · intro hnone
          have := ih1.mp hnone
          simp at this
        · rintro ⟨hn, hall⟩
          exact absurd (hall p (List.mem_cons_self p l)) (by omega)
      · exact le_trans (le_of_lt hc.2) ih2
      · intro q hq h2q
        rcases List.mem_cons.mp hq with rfl | hq'
        · exact le_trans (le_refl _) ih2
        · exact ih3 q hq' h2q
      · intro h hh
        rcases ih4 h hh with ⟨hacc, hval⟩ | ⟨q, hq, hq2, hqv, hqu⟩
        · exact Or.inr ⟨p, List.mem_cons_self p l,
            by simpa using hacc, by simpa using hval, hc.1⟩
        · exact Or.inr ⟨q, List.mem_cons_of_mem p hq, hq2, hqv, hqu⟩
    · have hstep : policyFold u acc (p :: l) = policyFold u acc l := by
        simp [policyFold, hc]
      obtain ⟨ih1, ih2, ih3, ih4⟩ := ih acc h0
      rw [hstep]
      refine ⟨?_, ih2, ?_, ?_⟩
      · rw [ih1]
        constructor
        · rintro ⟨hn, hall⟩
          refine ⟨hn, ?_⟩
          intro q hq
          rcases List.mem_cons.mp hq with rfl | hq'
          · -- the skipped head must have failed the threshold: acc.2 = 0 here
            have : acc.2 = 0 := h0 hn
            omega
          · exact hall q hq'
        · rintro ⟨hn, hall⟩
          exact ⟨hn, fun q hq => hall q (List.mem_cons_of_mem p hq)⟩
      · intro q hq h2q
        rcases List.mem_cons.mp hq with rfl | hq'
        · -- condition failed though the threshold held, so acc.2 already bounds it
          have : u q.1 ≤ acc.2 := by omega
          exact le_trans this ih2
        · exact ih3 q hq' h2q
      · intro h hh
        rcases ih4 h hh with ⟨hacc, hval⟩ | ⟨q, hq, hq2, hqv, hqu⟩
        · exact Or.inl ⟨hacc, hval⟩
        · exact Or.inr ⟨q, List.mem_cons_of_mem p hq, hq2, hqv, hqu⟩

theorem pickFold_spec :
    ∀ (cs : List (String × ℚ)) (c : String × ℚ),
      ((cs.foldl (fun best x => if best.2 < x.2 then x else best) c) = c
        ∨ (cs.foldl (fun best x => if best.2 < x.2 then x else best) c) ∈ cs)
      ∧ c.2 ≤ (cs.foldl (fun best x => if best.2 < x.2 then x else best) c).2
      ∧ ∀ x ∈ cs, x.2 ≤ (cs.foldl (fun best x => if best.2 < x.2 then x else best) c).2 := by
  intro cs
  induction cs with
  | nil => intro c; exact ⟨Or.inl rfl, le_refl _, by simp⟩
  | cons x cs ih =>
    intro c
    by_cases hx : c.2 < x.2
    · have hstep : (x :: cs).foldl (fun best y => if best.2 < y.2 then y else best) c
          = cs.foldl (fun best y => if best.2 < y.2 then y else best) x := by
        simp [hx]
      obtain ⟨ih1, ih2, ih3⟩ := ih x
      rw [hstep]
      refine ⟨?_, le_trans (le_of_lt hx) ih2, ?_⟩
      · rcases ih1 with h | h
        · exact Or.inr (by rw [h]; exact List.mem_cons_self x cs)
        · exact Or.inr (List.mem_cons_of_mem x h)
      · intro y hy
        rcases List.mem_cons.mp hy with rfl | hy'
        · exact ih2
        · exact ih3 y hy'
    · have hstep : (x :: cs).foldl (fun best y => if best.2 < y.2 then y else best) c
          = cs.foldl (fun best y => if best.2 < y.2 then y else best) c := by
        simp [hx]
      obtain ⟨ih1, ih2, ih3⟩ := ih c
      rw [hstep]
      refine ⟨?_, ih2, ?_⟩
      · rcases ih1 with h | h
        · exact Or.inl h
        · exact Or.inr (List.mem_cons_of_mem x h)
      · intro y hy
        rcases List.mem_cons.mp hy with rfl | hy'
        · exact le_trans (le_of_not_lt hx) ih2
        · exact ih3 y hy'

theorem pickMaxCand_spec {l : List (String × ℚ)} {c : String × ℚ}
    (h : pickMaxCand l = some c) : c ∈ l ∧ ∀ x ∈ l, x.2 ≤ c.2 := by
  cases l with
  | nil => simp [pickMaxCand] at h
  | cons a cs =>
    rw [pickMaxCand] at h
    obtain rfl : cs.foldl (fun best x => if best.2 < x.2 then x else best) a = c :=
      Option.some_inj.mp h
    obtain ⟨h1, h2, h3⟩ := pickFold_spec cs a
    refine ⟨?_, ?_⟩
    · rcases h1 with h | h
      · rw [h]; exact List.mem_cons_self a cs
      · exact List.mem_cons_of_mem a h
    · intro x hx
      rcases List.mem_cons.mp hx with rfl | hx'
      · exact h2
      · exact h3 x hx'

/-- The rational `max?` facts used for the premium column: the maximum is
a member and an upper bound. -/
theorem ratMax?_spec {l : List ℚ} {m : ℚ} (h : l.max? = some m) :
    m ∈ l ∧ ∀ v ∈ l, v ≤ m := by
  have hiff := @List.max?_eq_some_iff ℚ m _ _ ⟨fun h1 h2 => le_antisymm h1 h2⟩
    le_refl (fun a b => max_choice a b) (fun a b c => max_le_iff)
  exact hiff.mp h

theorem pyRound_close (q : ℚ) : |(pyRound q : ℚ) - q| ≤ 1 / 2 := by
  have h0 : (⌊q⌋ : ℚ) ≤ q := Int.floor_le q
  have h1 : q < (⌊q⌋ : ℚ) + 1 := Int.lt_floor_add_one q
  simp only [pyRound]
  split_ifs with ha hb hc
  · rw [abs_le]
    constructor <;> linarith
  · push_cast
    rw [abs_le]
    constructor <;> linarith
  · rw [abs_le]
    constructor <;> linarith
  · push_cast
    rw [abs_le]
    constructor <;> linarith

theorem roundedX_close (w : Word) : |(roundedX w : ℚ) - w.x0| ≤ 5 := by
  have h := pyRound_close (w.x0 / 10)
  rw [roundedX]
  push_cast
  have heq : (pyRound (w.x0 / 10) : ℚ) * 10 - w.x0
      = ((pyRound (w.x0 / 10) : ℚ) - w.x0 / 10) * 10 := by ring
  rw [heq, abs_mul, abs_of_nonneg (by norm_num : (0 : ℚ) ≤ 10)]
  nlinarith [abs_nonneg ((pyRound (w.x0 / 10) : ℚ) - w.x0 / 10)]

theorem rowInsertMean_mem {rows : List TRow} {w : Word} {r : TRow}
    (hr : r ∈ rowInsertMean rows w) :
    ∀ x ∈ r.words, (∃ r' ∈ rows, x ∈ r'.words) ∨ x = w := by
  induction rows with
  | nil =>
    intro x hx
    simp only [rowInsertMean, List.mem_singleton] at hr
    subst hr
    simp at hx
    exact Or.inr hx
  | cons r0 rs ih =>
    intro x hx
    rw [rowInsertMean] at hr
    split at hr
    · rcases List.mem_cons.mp hr with rfl | hmem
      · simp only [] at hx
        rcases List.mem_append.mp hx with hx0 | hxw
        · exact Or.inl ⟨r0, List.mem_cons_self r0 rs, hx0⟩
        · exact Or.inr (List.mem_singleton.mp hxw)
      · exact Or.inl ⟨r, List.mem_cons_of_mem r0 hmem, hx⟩
    · rcases List.mem_cons.mp hr with rfl | hmem
      · exact Or.inl ⟨r, List.mem_cons_self r rs, hx⟩
      · rcases ih hmem x hx with ⟨r', hr', hx'⟩ | hxw
        · exact Or.inl ⟨r', List.mem_cons_of_mem r0 hr', hx'⟩
        · exact Or.inr hxw

theorem clusterRowsMean_mem {ws : List Word} {r : TRow}
    (hr : r ∈ clusterRowsMean ws) : ∀ x ∈ r.words, x ∈ ws := by
  suffices h : ∀ (l : List Word) (rows : List TRow),
      (∀ r' ∈ rows, ∀ x ∈ r'.words, x ∈ ws) → (∀ x ∈ l, x ∈ ws) →
      ∀ r' ∈ l.foldl rowInsertMean rows, ∀ x ∈ r'.words, x ∈ ws by
    intro x hx
    exact h (sortByY ws) [] (by simp)
      (fun x hx => (List.perm_insertionSort _ ws).mem_iff.mp hx) r hr x hx
  intro l
  induction l with
  | nil =>
    intro rows hrows _
    simpa using hrows
  | cons a l ih =>
    intro rows hrows hl
    rw [List.foldl_cons]
    apply ih
    · intro r' hr' x hx
      rcases rowInsertMean_mem hr' x hx with ⟨r'', hr'', hx'⟩ | heq
      · exact hrows r'' hr'' x hx'
      · rw [heq]
        exact hl a (List.mem_cons_self a l)
    · exact fun x hx => hl x (List.mem_cons_of_mem a hx)

theorem survivor_mem (rows : List TRow) (x : ℤ) :
    x ∈ survivorColumns rows ↔
      detectThreshold rows ≤ (xRowCount rows x : ℚ) := by
  rw [survivorColumns, (List.perm_insertionSort _ _).mem_iff, List.mem_filter]
  constructor
  · rintro ⟨-, h⟩
    simpa using h
  · intro h
    refine ⟨?_, by simpa using h⟩
    have h2 : (2 : ℚ) ≤ detectThreshold rows := le_max_left _ _
    have hpos : 0 < xRowCount rows x := by
      by_contra hz
      have hzero : xRowCount rows x = 0 := Nat.eq_zero_of_not_pos hz
      rw [hzero] at h
      push_cast at h
      linarith
    obtain ⟨r, hr, hcont⟩ := List.countP_pos_iff.mp hpos
    rw [allRoundedXs, List.mem_dedup, List.mem_flatMap]
    exact ⟨r, hr, by simpa using hcont⟩

theorem mergeFold_cons_ne (acc : List ℚ) (x : ℚ) : mergeFold acc x ≠ [] := by
  cases acc with
  | nil => simp [mergeFold]
  | cons m ms =>
    rw [mergeFold]
    split_ifs <;> simp

theorem mergeFold_foldl_ne_nil :
    ∀ (xs : List ℤ) (acc : List ℚ), (acc = [] → xs ≠ []) →
      xs.foldl (fun acc (x : ℤ) => mergeFold acc (x : ℚ)) acc ≠ [] := by
  intro xs
  induction xs with
  | nil =>
    intro acc h hc
    exact h hc rfl
  | cons x xs ih =>
    intro acc _
    rw [List.foldl_cons]
    exact ih (mergeFold acc (x : ℚ)) (fun hc => absurd hc (mergeFold_cons_ne acc (x : ℚ)))

theorem mergeFold_pairwise :
    ∀ (xs : List ℤ) (acc : List ℚ),
      List.Pairwise (fun a b : ℚ => b < a) acc →
      List.Pairwise (fun a b : ℤ => a < b) xs →
      (∀ a ∈ acc, ∀ y ∈ xs, a < (y : ℚ)) →
      List.Pairwise (fun a b : ℚ => b < a)
        (xs.foldl (fun acc (x : ℤ) => mergeFold acc (x : ℚ)) acc) := by
  intro xs
  induction xs with
  | nil =>
    intro acc ha _ _
    simpa using ha
  | cons x xs ih =>
    intro acc ha hx hlt
    rw [List.foldl_cons]
    have hxtail := (List.pairwise_cons.mp hx).2
    have hxhead := (List.pairwise_cons.mp hx).1
    apply ih _ ?_ hxtail ?_
    · -- the accumulator after one step is still strictly decreasing
      cases acc with
      | nil => simp [mergeFold]
      | cons m ms =>
        obtain ⟨hm, hms⟩ := List.pairwise_cons.mp ha
        have hmx : m < (x : ℚ) := hlt m (List.mem_cons_self m ms) x (List.mem_cons_self x xs)
        rw [mergeFold]
        split_ifs with hgap
        · refine List.pairwise_cons.mpr ⟨?_, ha⟩
          intro b hb
          rcases List.mem_cons.mp hb with rfl | hbm
          · exact hmx
          · exact lt_trans (hm b hbm) hmx
        · refine List.pairwise_cons.mpr ⟨?_, hms⟩
          intro b hb
          have := hm b hb
          linarith
    · -- everything kept is below every future position
      intro a hax y hy
      have hxy : (x : ℚ) < (y : ℚ) := by exact_mod_cast hxhead y hy
      cases acc with
      | nil =>
        simp only [mergeFold, List.mem_singleton] at hax
        subst hax
        exact hxy
      | cons m ms =>
        have hmx : m < (x : ℚ) := hlt m (List.mem_cons_self m ms) x (List.mem_cons_self x xs)
        rw [mergeFold] at hax
        split_ifs at hax with hgap
        · rcases List.mem_cons.mp hax with rfl | ham
          · exact hxy
          · exact lt_trans (hlt a (by simpa using ham) x (List.mem_cons_self x xs)) hxy
        · rcases List.mem_cons.mp hax with rfl | ham
          · linarith
          · exact lt_trans
              (hlt a (List.mem_cons_of_mem m ham) x (List.mem_cons_self x xs)) hxy

/-- The rational `min?` facts used for column assignment: the minimum is
a member and a lower bound. -/
theorem ratMin?_spec {l : List ℚ} {m : ℚ} (h : l.min? = some m) :
    m ∈ l ∧ ∀ v ∈ l, m ≤ v := by
  have hiff := @List.min?_eq_some_iff ℚ m _ _ ⟨fun h1 h2 => le_antisymm h1 h2⟩
    le_refl (fun a b => min_choice a b) (fun a b c => le_min_iff)
  exact hiff.mp h

/-- `distances.index(min(distances))` characterised: the nearest index
is in range, attains the minimal distance, every column is at least that
far, and every earlier column is strictly farther. -/
theorem nearest_spec (x : ℚ) (cols : List ℚ) (h : cols ≠ []) :
    nearestIdx x cols < cols.length
    ∧ |x - cols.getD (nearestIdx x cols) 0| = nearestDist x cols
    ∧ (∀ j < cols.length, nearestDist x cols ≤ |x - cols.getD j 0|)
    ∧ (∀ j < nearestIdx x cols, nearestDist x cols < |x - cols.getD j 0|) := by
  have hdsne : cols.map (fun c => |x - c|) ≠ [] := by simpa using h
  cases hm : (cols.map (fun c => |x - c|)).min? with
  | none => exact absurd (List.min?_eq_none_iff.mp hm) hdsne
  | some d =>
    obtain ⟨hdmem, hdle⟩ := ratMin?_spec hm
    have hidx_lt : (cols.map (fun c => |x - c|)).indexOf d
        < (cols.map (fun c => |x - c|)).length :=
      List.indexOf_lt_length.mpr hdmem
    have hni : nearestIdx x cols = (cols.map (fun c => |x - c|)).indexOf d := by
      rw [nearestIdx, hm]
    have hnd : nearestDist x cols = d := by
      rw [nearestDist, hm]
    have hlen : (cols.map (fun c => |x - c|)).length = cols.length :=
      List.length_map _ _
    have hni_lt : nearestIdx x cols < cols.length := by
      rw [hni]
      omega
    have hget : ∀ j, j < cols.length →
        (cols.map (fun c => |x - c|)).getD j 0 = |x - cols.getD j 0| := by
      intro j hj
      rw [List.getD_eq_getElem _ _ (by rw [List.length_map]; exact hj),
        List.getElem_map, List.getD_eq_getElem _ _ hj]
    refine ⟨hni_lt, ?_, ?_, ?_⟩
    · rw [hnd, ← hget (nearestIdx x cols) hni_lt]
      have h1 : (cols.map (fun c => |x - c|))[nearestIdx x cols]? = some d := by
        rw [hni, List.getElem?_eq_getElem hidx_lt, List.getElem_indexOf hidx_lt]
      rw [List.getD_eq_getElem?_getD, h1]
      rfl
    · intro j hj
      rw [hnd, ← hget j hj, List.getD_eq_getElem _ _ (by rw [List.length_map]; exact hj)]
      exact hdle _ (List.getElem_mem _)
    · intro j hj
      have hjlen : j < cols.length := lt_trans hj hni_lt
      have hjmap : j < (cols.map (fun c => |x - c|)).length := by
        rw [List.length_map]
        exact hjlen
      have hne : (cols.map (fun c => |x - c|))[j] ≠ d := by
        have hj' : j < List.findIdx (fun b => b == d) (cols.map (fun c => |x - c|)) := by
          rw [hni] at hj
          exact hj
        have hfalse := List.not_of_lt_findIdx hj'
        simpa using hfalse
      have hle := hdle _ (List.getElem_mem hjmap)
      rw [hnd, ← hget j hjlen, List.getD_eq_getElem _ _ hjmap]
      exact lt_of_le_of_ne hle (fun hc => hne hc.symm)

/-- One insertion step of the two row clusterers agrees, and the
invariant "every row's members all sit at the row's center and come from
`ws`" is preserved, provided any two token centers of `ws` are equal or
more than 4 apart. -/
theorem rowInsert_agree {ws : List Word}
    (h : ∀ w ∈ ws, ∀ w' ∈ ws,
      wCenter w = wCenter w' ∨ 4 < |wCenter w - wCenter w'|)
    {w : Word} (hw : w ∈ ws) :
    ∀ rows : List TRow,
      (∀ r ∈ rows, r.words ≠ [] ∧ ∀ x ∈ r.words, wCenter x = r.y ∧ x ∈ ws) →
      rowInsertMean rows w = rowInsertFixed rows w
      ∧ ∀ r ∈ rowInsertFixed rows w,
          r.words ≠ [] ∧ ∀ x ∈ r.words, wCenter x = r.y ∧ x ∈ ws := by
  intro rows
  induction rows with
  | nil =>
    intro _
    refine ⟨rfl, ?_⟩
    intro r hr
    simp only [rowInsertFixed, List.mem_singleton] at hr
    subst hr
    refine ⟨by simp, ?_⟩
    intro x hx
    simp only [List.mem_singleton] at hx
    subst hx
    exact ⟨rfl, hw⟩
  | cons r0 rs ih =>
    intro hinv
    by_cases hc : |wCenter w - r0.y| ≤ 4
    · obtain ⟨hne0, hmem0⟩ := hinv r0 (List.mem_cons_self r0 rs)
      obtain ⟨w0, hw0⟩ := List.exists_mem_of_ne_nil _ hne0
      obtain ⟨hw0c, hw0s⟩ := hmem0 w0 hw0
      have hwc : wCenter w = r0.y := by
        rcases h w hw w0 hw0s with heq | hgt
        · rw [heq, hw0c]
        · exfalso
          rw [hw0c] at hgt
          exact absurd hc (not_le.mpr hgt)
      have hall : ∀ x ∈ r0.words ++ [w], wCenter x = r0.y := by
        intro x hx
        rcases List.mem_append.mp hx with hx0 | hxw
        · exact (hmem0 x hx0).1
        · rw [List.mem_singleton.mp hxw]
          exact hwc
      have hmean : (((r0.words ++ [w]).map wCenter).sum)
          / (((r0.words ++ [w]).length : ℚ)) = r0.y := by
        have hrepl : (r0.words ++ [w]).map wCenter
            = List.replicate (r0.words ++ [w]).length r0.y := by
          apply List.eq_replicate_iff.mpr
          refine ⟨by simp, ?_⟩
          intro b hb
          rcases List.mem_map.mp hb with ⟨x, hx, rfl⟩
          exact hall x hx
        rw [hrepl, List.sum_replicate, nsmul_eq_mul]
        have hlen : ((r0.words ++ [w]).length : ℚ) ≠ 0 := by
          have h0 : (0 : ℚ) ≤ (r0.words.length : ℚ) := Nat.cast_nonneg _
          simp only [List.length_append, List.length_singleton, Nat.cast_add,
            Nat.cast_one]
          intro hc'
          linarith
        field_simp
      constructor
      · simp only [rowInsertMean, rowInsertFixed, if_pos hc]
        rw [hmean]
      · intro r hr
        simp only [rowInsertFixed, if_pos hc] at hr
        rcases List.mem_cons.mp hr with rfl | hmem
        · refine ⟨by simp, ?_⟩
          intro x hx
          refine ⟨hall x hx, ?_⟩
          rcases List.mem_append.mp hx with hx0 | hxw
          · exact (hmem0 x hx0).2
          · rw [List.mem_singleton.mp hxw]
            exact hw
        · exact hinv r (List.mem_cons_of_mem r0 hmem)
    · obtain ⟨ihEq, ihInv⟩ := ih (fun r hr => hinv r (List.mem_cons_of_mem r0 hr))
      constructor
      · simp only [rowInsertMean, rowInsertFixed, if_neg hc]
        rw [ihEq]
      · intro r hr
        simp only [rowInsertFixed, if_neg hc] at hr
        rcases List.mem_cons.mp hr with rfl | hmem
        · exact hinv r (List.mem_cons_self r rs)
        · exact ihInv r hmem

theorem clusterRows_agree_aux {ws : List Word}
    (h : ∀ w ∈ ws, ∀ w' ∈ ws,
      wCenter w = wCenter w' ∨ 4 < |wCenter w - wCenter w'|) :
    ∀ l : List Word, (∀ x ∈ l, x ∈ ws) →
      ∀ rows : List TRow,
        (∀ r ∈ rows, r.words ≠ [] ∧ ∀ x ∈ r.words, wCenter x = r.y ∧ x ∈ ws) →
        l.foldl rowInsertMean rows = l.foldl rowInsertFixed rows := by
  intro l
  induction l with
  | nil =>
    intro _ rows _
    rfl
  | cons a l ih =>
    intro hl rows hinv
    obtain ⟨hstep, hinv'⟩ :=
      rowInsert_agree h (hl a (List.mem_cons_self a l)) rows hinv
    rw [List.foldl_cons, List.foldl_cons, hstep]
    exact ih (fun x hx => hl x (List.mem_cons_of_mem a hx)) _ hinv'

theorem balanced_flag_eq {df : List Agg} (h : (df.map (·.policy)).Nodup) (a : Agg) :
    (a.balanced || decide (lookupPremium df a.policy = some a.premium))
      = (a.balanced || decide (∃ b ∈ df, b.policy = a.policy ∧ b.premium = a.premium)) := by
  rw [decide_eq_decide.mpr (lookupPremium_eq_some h)]

/-! ### Claim theorems -/

/-- C1: for a related pair `(A, B)`, the matcher marks `A`'s aggregate row
for a policy `p` as balanced exactly when it was already balanced or `B`
holds an aggregate row for the same policy number with numerically equal
premium total (strict equality); a policy absent from `B` leaves the flag
unchanged, and the rule is applied symmetrically to `B` using `A`.
Policy and premium fields are untouched. -/
theorem update_balanced_spec (df1 df2 : List Agg)
    (h1 : (df1.map (·.policy)).Nodup) (h2 : (df2.map (·.policy)).Nodup) :
    (update_balanced_status df1 df2).1 = df1.map (fun a =>
        { a with balanced := a.balanced ||
            decide (∃ b ∈ df2, b.policy = a.policy ∧ b.premium = a.premium) })
    ∧ (update_balanced_status df1 df2).2 = df2.map (fun a =>
        { a with balanced := a.balanced ||
            decide (∃ b ∈ df1, b.policy = a.policy ∧ b.premium = a.premium) }) := by
  unfold update_balanced_status
  constructor
  · exact List.map_congr_left (fun a _ => by rw [balanced_flag_eq h2])
  · exact List.map_congr_left (fun a _ => by rw [balanced_flag_eq h1])

/-- Witness for C1: two one-row documents both reporting policy `P1` at
premium `500`. -/
theorem update_balanced_spec_witness :
    ((([⟨"P1", 500, false⟩] : List Agg).map (·.policy)).Nodup)
    ∧ (update_balanced_status [⟨"P1", 500, false⟩] [⟨"P1", 500, false⟩]).1 =
        ([⟨"P1", 500, false⟩] : List Agg).map (fun a =>
          { a with balanced := a.balanced ||
              decide (∃ b ∈ ([⟨"P1", 500, false⟩] : List Agg),
                b.policy = a.policy ∧ b.premium = a.premium) }) :=
  ⟨by decide, (update_balanced_spec _ _ (by decide) (by decide)).1⟩

/-- C2: each aggregate row's premium total is the sum of the premiums of
every record of the document with that policy number; the total is
invariant under permutation of the records and splits additively over
concatenation of per-page/per-table record lists. -/
theorem aggregate_premium_spec (records : List PolicyRecord) :
    (∀ a ∈ aggregate_pdfs records,
        a.premium = ((records.filter (fun r => r.policy = a.policy)).map (·.premium)).sum)
    ∧ (∀ p : String, p ∈ records.map (·.policy) →
        ∃ a ∈ aggregate_pdfs records, a.policy = p)
    ∧ (∀ (p : String) (l₁ l₂ : List PolicyRecord), l₁.Perm l₂ →
        premiumTotal l₁ p = premiumTotal l₂ p)
    ∧ (∀ (p : String) (l₁ l₂ : List PolicyRecord),
        premiumTotal (l₁ ++ l₂) p = premiumTotal l₁ p + premiumTotal l₂ p) := by
  refine ⟨?_, ?_, ?_, ?_⟩
  · intro a ha
    rcases List.mem_map.mp ha with ⟨p, _, rfl⟩
    rfl
  · intro p hp
    refine ⟨⟨p, premiumTotal records p, false⟩, ?_, rfl⟩
    exact List.mem_map_of_mem _ (List.mem_dedup.mpr hp)
  · intro p l₁ l₂ hperm
    exact ((hperm.filter _).map _).sum_eq
  · intro p l₁ l₂
    simp [premiumTotal]

/-- Witness for C2: a document with two `P1` rows (premiums 300 and 200)
on different pages. -/
theorem aggregate_premium_spec_witness :
    (⟨"P1", premiumTotal [⟨"A.pdf", 1, "P1", 300⟩, ⟨"A.pdf", 2, "P1", 200⟩] "P1", false⟩ : Agg)
      ∈ aggregate_pdfs [⟨"A.pdf", 1, "P1", 300⟩, ⟨"A.pdf", 2, "P1", 200⟩]
    ∧ (⟨"P1", premiumTotal [⟨"A.pdf", 1, "P1", 300⟩, ⟨"A.pdf", 2, "P1", 200⟩] "P1", false⟩ : Agg).premium
      = ((([⟨"A.pdf", 1, "P1", 300⟩, ⟨"A.pdf", 2, "P1", 200⟩] : List PolicyRecord).filter
          (fun r => r.policy = "P1")).map (·.premium)).sum := by
  have hmem : (⟨"P1", premiumTotal [⟨"A.pdf", 1, "P1", 300⟩, ⟨"A.pdf", 2, "P1", 200⟩] "P1",
      false⟩ : Agg) ∈ aggregate_pdfs [⟨"A.pdf", 1, "P1", 300⟩, ⟨"A.pdf", 2, "P1", 200⟩] := by
    simp [aggregate_pdfs]
  exact ⟨hmem, (aggregate_premium_spec _).1 _ hmem⟩

/-- C3 counterexample: with policy `ABC1234` flagged, the word
`"#ABC1234"` is highlighted although its text does not exactly match any
flagged policy number — the highlighter matches `POLICY_PATTERN.search`
substrings, not whole tokens. -/
theorem highlight_exact_match_cex :
    highlightedWords [⟨0, 0, 10, 10, "#ABC1234"⟩] [⟨"ABC1234", 5, false⟩]
        = [⟨0, 0, 10, 10, "#ABC1234"⟩]
    ∧ "#ABC1234" ∉ unbalancedPolicies [⟨"ABC1234", 5, false⟩] := by
  constructor
  · decide
  · decide

/-- C3 (amended): the flagged discrepancy set is exactly the policy
numbers with `balanced = false` and strictly positive premium total; a
highlight is produced for exactly those tokens whose stripped text has a
first `POLICY_PATTERN` match lying in the flagged set — in particular for
every token whose text exactly equals a flagged policy number. -/
theorem highlight_unbalanced_spec (df : List Agg) (words : List Word) :
    (∀ p : String, p ∈ unbalancedPolicies df ↔
        ∃ a ∈ df, a.policy = p ∧ a.balanced = false ∧ 0 < a.premium)
    ∧ (∀ w : Word, w ∈ highlightedWords words df ↔
        w ∈ words ∧ ∃ m, policySearch (pyStrip w.text) = some m
          ∧ m ∈ unbalancedPolicies df)
    ∧ (∀ w ∈ words, isPolicyShaped w.text = true →
        w.text ∈ unbalancedPolicies df → w ∈ highlightedWords words df) := by
  have h1 : ∀ p : String, p ∈ unbalancedPolicies df ↔
      ∃ a ∈ df, a.policy = p ∧ a.balanced = false ∧ 0 < a.premium := by
    intro p
    simp only [unbalancedPolicies, List.mem_map, List.mem_filter,
      Bool.and_eq_true, Bool.not_eq_true', decide_eq_true_eq]
    constructor
    · rintro ⟨a, ⟨ha, hb, hp⟩, rfl⟩
      exact ⟨a, ha, rfl, hb, hp⟩
    · rintro ⟨a, ha, rfl, hb, hp⟩
      exact ⟨a, ⟨ha, hb, hp⟩, rfl⟩
  have h2 : ∀ w : Word, w ∈ highlightedWords words df ↔
      w ∈ words ∧ ∃ m, policySearch (pyStrip w.text) = some m
        ∧ m ∈ unbalancedPolicies df := by
    intro w
    unfold highlightedWords
    by_cases hg : unbalancedPolicies df = []
    · simp [hg]
    · rw [if_neg hg, List.mem_filter]
      unfold highlightWordTest
      cases hps : policySearch (pyStrip w.text) with
      | none => simp
      | some m =>
        simp only [List.contains_iff_exists_mem_beq]
        constructor
        · rintro ⟨hw, hm⟩
          rcases hm with ⟨m', hm', hbeq⟩
          obtain rfl : m = m' := by simpa using hbeq
          exact ⟨hw, m, rfl, hm'⟩
        · rintro ⟨hw, m', hm', hmem⟩
          obtain rfl : m = m' := Option.some_inj.mp hm'
          exact ⟨hw, m, hmem, by simp⟩
  refine ⟨h1, h2, ?_⟩
  intro w hw hshape hmem
  refine (h2 w).mpr ⟨hw, w.text, ?_, hmem⟩
  rw [pyStrip_shaped hshape, policySearch_shaped hshape]

/-- Witness for C3 (amended): the word `ABC1234` itself is highlighted
when policy `ABC1234` is flagged. -/
theorem highlight_unbalanced_spec_witness :
    (⟨0, 0, 10, 10, "ABC1234"⟩ : Word) ∈ ([⟨0, 0, 10, 10, "ABC1234"⟩] : List Word)
    ∧ isPolicyShaped "ABC1234" = true
    ∧ "ABC1234" ∈ unbalancedPolicies [⟨"ABC1234", 5, false⟩]
    ∧ (⟨0, 0, 10, 10, "ABC1234"⟩ : Word) ∈
        highlightedWords [⟨0, 0, 10, 10, "ABC1234"⟩] [⟨"ABC1234", 5, false⟩] :=
  ⟨by decide, by decide, by decide,
    (highlight_unbalanced_spec [⟨"ABC1234", 5, false⟩] [⟨0, 0, 10, 10, "ABC1234"⟩]).2.2
      _ (by decide) (by decide) (by decide)⟩

/-- C4: `find_policy_column` returns a column with the greatest number
of distinct identifier matches (first substring of uppercase
alphanumerics of length at least 6 per cell), provided that count is at
least 2, and `None` exactly when no column reaches 2 distinct matches;
when either classifier returns no winner the table contributes no
records. -/
theorem find_policy_column_spec (df : DFrame)
    (hnd : df.headers.Nodup) (hne : ∀ h ∈ df.headers, h ≠ "") :
    (∀ i : ℕ, find_policy_column df = some i →
        i < df.headers.length ∧ 2 ≤ uniquePolicyCount (df.col i)
        ∧ ∀ j < df.headers.length,
            uniquePolicyCount (df.col j) ≤ uniquePolicyCount (df.col i))
    ∧ (find_policy_column df = none ↔
        ∀ j < df.headers.length, uniquePolicyCount (df.col j) < 2)
    ∧ (∀ (isIntact : Bool) (pdf : String) (page : ℕ),
        find_policy_column df = none ∨ find_premium_column df = none →
        tableRecords isIntact pdf page df = []) := by
  obtain ⟨hf1, hf2, hf3, hf4⟩ :=
    policyFold_spec (fun i => uniquePolicyCount (df.col i)) df.headers.enum (none, 0)
      (fun _ => rfl)
  refine ⟨?_, ?_, ?_⟩
  · intro i hi
    cases hb : (policyFold (fun i => uniquePolicyCount (df.col i)) (none, 0)
        df.headers.enum).1 with
    | none =>
      have hfn : find_policy_column df = none := by
        rw [find_policy_column, hb]
      rw [hfn] at hi
      exact Option.noConfusion hi
    | some h =>
      rcases hf4 h hb with ⟨hacc, _⟩ | ⟨p, hp, hph, hval, hbig⟩
      · simp at hacc
      · have hk := List.mem_enum_iff_getElem?.mp hp
        rcases List.getElem?_eq_some.mp hk with ⟨hklen, hgetk⟩
        have hidx : List.indexOf h df.headers = p.1 := by
          rw [← hph, ← hgetk]
          exact List.indexOf_getElem hnd p.1 hklen
        have hhne : h ≠ "" := by
          apply hne
          rw [← hph, ← hgetk]
          exact List.getElem_mem hklen
        have hfind : find_policy_column df = some (List.indexOf h df.headers) := by
          rw [find_policy_column, hb]
          show (if h = "" then none else some (List.indexOf h df.headers))
            = some (List.indexOf h df.headers)
          rw [if_neg hhne]
        rw [hfind] at hi
        obtain rfl : i = List.indexOf h df.headers := (Option.some_inj.mp hi).symm
        rw [hidx]
        refine ⟨hklen, hbig, ?_⟩
        intro j hj
        by_cases h2j : 2 ≤ uniquePolicyCount (df.col j)
        · have hjmem : ((j, df.headers[j]) : ℕ × String) ∈ df.headers.enum :=
            List.mem_enum_iff_getElem?.mpr (List.getElem?_eq_getElem hj)
          have hle := hf3 (j, df.headers[j]) hjmem h2j
          rw [hval] at hle
          exact hle
        · omega
  · constructor
    · intro hnone
      cases hb : (policyFold (fun i => uniquePolicyCount (df.col i)) (none, 0)
          df.headers.enum).1 with
      | none =>
        have hall := (hf1.mp hb).2
        intro j hj
        exact hall (j, df.headers[j])
          (List.mem_enum_iff_getElem?.mpr (List.getElem?_eq_getElem hj))
      | some h =>
        exfalso
        rcases hf4 h hb with ⟨hacc, _⟩ | ⟨p, hp, hph, hval, hbig⟩
        · simp at hacc
        · have hk := List.mem_enum_iff_getElem?.mp hp
          rcases List.getElem?_eq_some.mp hk with ⟨hklen, hgetk⟩
          have hhne : h ≠ "" := by
            apply hne
            rw [← hph, ← hgetk]
            exact List.getElem_mem hklen
          have hfind : find_policy_column df = some (List.indexOf h df.headers) := by
            rw [find_policy_column, hb]
            show (if h = "" then none else some (List.indexOf h df.headers))
              = some (List.indexOf h df.headers)
            rw [if_neg hhne]
          rw [hfind] at hnone
          exact Option.noConfusion hnone
    · intro hall
      have hnone : (policyFold (fun i => uniquePolicyCount (df.col i)) (none, 0)
          df.headers.enum).1 = none := by
        apply hf1.mpr
        refine ⟨rfl, ?_⟩
        intro p hp
        have hk := List.mem_enum_iff_getElem?.mp hp
        rcases List.getElem?_eq_some.mp hk with ⟨hklen, _⟩
        exact hall p.1 hklen
      rw [find_policy_column, hnone]
  · intro ii pdf page hor
    rcases hor with h | h
    · cases hq : find_premium_column df <;> simp [tableRecords, h, hq]
    · cases hq : find_policy_column df <;> simp [tableRecords, h, hq]

/-- Witness for C4: on a table whose first column holds two distinct
policy identifiers, the classifier picks column 0; a one-column table
with no identifiers is discarded. -/
theorem find_policy_column_spec_witness :
    (⟨["Pol", "Amt"], [["AB123456", "10.00"], ["XY987654", "20.00"]]⟩ : DFrame).headers.Nodup
    ∧ (∀ h ∈ (⟨["Pol", "Amt"],
        [["AB123456", "10.00"], ["XY987654", "20.00"]]⟩ : DFrame).headers, h ≠ "")
    ∧ find_policy_column
        (⟨["Pol", "Amt"], [["AB123456", "10.00"], ["XY987654", "20.00"]]⟩ : DFrame) = some 0
    ∧ (0 < (⟨["Pol", "Amt"],
          [["AB123456", "10.00"], ["XY987654", "20.00"]]⟩ : DFrame).headers.length
        ∧ 2 ≤ uniquePolicyCount
            ((⟨["Pol", "Amt"], [["AB123456", "10.00"], ["XY987654", "20.00"]]⟩ : DFrame).col 0)
        ∧ ∀ j < (⟨["Pol", "Amt"],
              [["AB123456", "10.00"], ["XY987654", "20.00"]]⟩ : DFrame).headers.length,
            uniquePolicyCount ((⟨["Pol", "Amt"],
                [["AB123456", "10.00"], ["XY987654", "20.00"]]⟩ : DFrame).col j)
              ≤ uniquePolicyCount ((⟨["Pol", "Amt"],
                [["AB123456", "10.00"], ["XY987654", "20.00"]]⟩ : DFrame).col 0)) :=
  ⟨by decide, by decide, by decide,
    (find_policy_column_spec _ (by decide) (by decide)).1 0 (by decide)⟩

/-- C5 counterexample: the percentage cell `"12.00%"` counts toward the
numeric count (it cleans to `"12.00"`, which parses and ends in `".00"`),
and a column containing only that percentage is selected as the premium
column — refuting "percentages never count". -/
theorem premium_percentage_cex :
    premiumCellValue "12.00%" = some 12
    ∧ find_premium_column ⟨["A"], [["12.00%"]]⟩ = some 0 := by
  have hc : cleanMoneyCell "12.00%" = "12.00" := by decide
  have h1 : digitsToNat ['1', '2'] = 12 := by decide
  have h2 : digitsToNat ['0', '0'] = 0 := by decide
  have ht : List.takeWhile Char.isDigit ['1', '2', '.', '0', '0'] = ['1', '2'] := by decide
  have hp : parseDecimal "12.00" = some 12 := by
    simp +decide only [parseDecimal, String.toList, ht]
    norm_num [ht, h1, h2]
  have he : endsWithDot00 "12.00" = true := by decide
  have hv : premiumCellValue "12.00%" = some 12 := by
    rw [premiumCellValue, hc, hp]
    simp [he]
  refine ⟨hv, ?_⟩
  have hcands : premiumCands ⟨["A"], [["12.00%"]]⟩ = [("A", 12)] := by
    rw [premiumCands]
    simp +decide [DFrame.col, premiumValues, hv, List.max?]
  rw [find_premium_column, hcands]
  simp +decide [pickMaxCand]

/-- C5 (amended): a cell counts toward a column's numeric count exactly
when, after stripping `%`, whitespace, `$` and `,`, its text parses as a
number and still literally ends in `".00"` (so bare integers, and
percentages without a `".00"`-ending numeric part, never count); among
columns with a counting cell the winner's maximum dominates every
counting value, and `None` is returned exactly when no column has a
counting cell. -/
theorem find_premium_column_spec (df : DFrame) (hnd : df.headers.Nodup) :
    (find_premium_column df = none ↔
        ∀ j < df.headers.length, premiumValues (df.col j) = [])
    ∧ (∀ i : ℕ, find_premium_column df = some i →
        i < df.headers.length
        ∧ ∃ m : ℚ, (premiumValues (df.col i)).max? = some m
            ∧ ∀ j < df.headers.length, ∀ v ∈ premiumValues (df.col j), v ≤ m)
    ∧ (∀ (s : String) (v : ℚ), premiumCellValue s = some v →
        parseDecimal (cleanMoneyCell s) = some v
        ∧ endsWithDot00 (cleanMoneyCell s) = true)
    ∧ (∀ s : String, (cleanMoneyCell s).toList.all Char.isDigit = true →
        premiumCellValue s = none) := by
  have hpick_none : ∀ l : List (String × ℚ), pickMaxCand l = none ↔ l = [] := by
    intro l; cases l <;> simp [pickMaxCand]
  have hnone_eq : pickMaxCand (premiumCands df) = none → find_premium_column df = none := by
    intro h; rw [find_premium_column, h]
  have hsome_eq : ∀ c, pickMaxCand (premiumCands df) = some c →
      find_premium_column df = some (List.indexOf c.1 df.headers) := by
    intro c h; rw [find_premium_column, h]
  refine ⟨?_, ?_, ?_, ?_⟩
  · constructor
    · intro hnone j hj
      cases hpc : pickMaxCand (premiumCands df) with
      | some c => rw [hsome_eq c hpc] at hnone; exact Option.noConfusion hnone
      | none =>
        have hcnil : premiumCands df = [] := (hpick_none _).mp hpc
        by_contra hne
        cases hm : (premiumValues (df.col j)).max? with
        | none => exact hne (List.max?_eq_none_iff.mp hm)
        | some m =>
          have hmem : ((df.headers[j], m) : String × ℚ) ∈ premiumCands df := by
            rw [premiumCands, List.mem_filterMap]
            refine ⟨(j, df.headers[j]),
              List.mem_enum_iff_getElem?.mpr (List.getElem?_eq_getElem hj), ?_⟩
            show (match (premiumValues (df.col j)).max? with
              | some m => some (df.headers[j], m)
              | none => none) = some (df.headers[j], m)
            rw [hm]
          rw [hcnil] at hmem
          exact absurd hmem (List.not_mem_nil _)
    · intro hall
      apply hnone_eq
      apply (hpick_none _).mpr
      rw [premiumCands, List.filterMap_eq_nil_iff]
      intro ih hih
      have hk := List.mem_enum_iff_getElem?.mp hih
      rcases List.getElem?_eq_some.mp hk with ⟨hklen, _⟩
      have hv : premiumValues (df.col ih.1) = [] := hall ih.1 hklen
      show (match (premiumValues (df.col ih.1)).max? with
        | some m => some (ih.2, m)
        | none => none) = none
      rw [hv]
      rfl
  · intro i hi
    cases hpc : pickMaxCand (premiumCands df) with
    | none => rw [hnone_eq hpc] at hi; exact Option.noConfusion hi
    | some c =>
      rw [hsome_eq c hpc] at hi
      obtain ⟨hcmem, hcmax⟩ := pickMaxCand_spec hpc
      rw [premiumCands, List.mem_filterMap] at hcmem
      obtain ⟨ih, hih, hg⟩ := hcmem
      cases hm : (premiumValues (df.col ih.1)).max? with
      | none =>
        rw [hm] at hg
        exact Option.noConfusion hg
      | some m =>
        rw [hm] at hg
        have hceq : (ih.2, m) = c := Option.some_inj.mp hg
        have hk := List.mem_enum_iff_getElem?.mp hih
        rcases List.getElem?_eq_some.mp hk with ⟨hklen, hgetk⟩
        have hidx : List.indexOf c.1 df.headers = ih.1 := by
          rw [← hceq]
          show List.indexOf ih.2 df.headers = ih.1
          rw [← hgetk]
          exact List.indexOf_getElem hnd ih.1 hklen
        obtain rfl : i = ih.1 := by rw [← Option.some_inj.mp hi, hidx]
        refine ⟨hklen, m, hm, ?_⟩
        intro j hj v hv
        cases hmj : (premiumValues (df.col j)).max? with
        | none =>
          rw [List.max?_eq_none_iff.mp hmj] at hv
          exact absurd hv (List.not_mem_nil v)
        | some mj =>
          have hmemj : ((df.headers[j], mj) : String × ℚ) ∈ premiumCands df := by
            rw [premiumCands, List.mem_filterMap]
            refine ⟨(j, df.headers[j]),
              List.mem_enum_iff_getElem?.mpr (List.getElem?_eq_getElem hj), ?_⟩
            show (match (premiumValues (df.col j)).max? with
              | some m => some (df.headers[j], m)
              | none => none) = some (df.headers[j], mj)
            rw [hmj]
          have h1 : mj ≤ c.2 := hcmax _ hmemj
          have h2 : v ≤ mj := (ratMax?_spec hmj).2 v hv
          have hm2 : c.2 = m := by rw [← hceq]
          exact le_trans h2 (le_of_le_of_eq h1 hm2)
  · intro s v hv
    rw [premiumCellValue] at hv
    cases hpd : parseDecimal (cleanMoneyCell s) with
    | none => rw [hpd] at hv; exact Option.noConfusion hv
    | some v' =>
      rw [hpd] at hv
      cases he : endsWithDot00 (cleanMoneyCell s) with
      | false => rw [he] at hv; simp at hv
      | true =>
        rw [he] at hv
        simp only [if_true] at hv
        obtain rfl : v' = v := Option.some_inj.mp hv
        exact ⟨rfl, rfl⟩
  · intro s hdig
    rw [premiumCellValue]
    cases hpd : parseDecimal (cleanMoneyCell s) with
    | none => rfl
    | some v =>
      have hf : endsWithDot00 (cleanMoneyCell s) = false := by
        by_contra hne'
        have htrue : ((cleanMoneyCell s).toList.reverse.take 3 = ['0', '0', '.']) := by
          have := Bool.of_not_eq_false hne'
          simpa [endsWithDot00] using this
        have hdot : ('.' : Char) ∈ (cleanMoneyCell s).toList := by
          have hmem : ('.' : Char) ∈ (cleanMoneyCell s).toList.reverse.take 3 := by
            rw [htrue]; simp
          exact List.mem_reverse.mp (List.mem_of_mem_take hmem)
        have := List.all_eq_true.mp hdig '.' hdot
        exact absurd this (by decide)
      rw [hf]
      simp

/-- Witness for C5 (amended): a single column holding `"1.00"` is chosen
and its maximum `1` bounds every counting value. -/
theorem find_premium_column_spec_witness :
    (⟨["A"], [["1.00"]]⟩ : DFrame).headers.Nodup
    ∧ find_premium_column (⟨["A"], [["1.00"]]⟩ : DFrame) = some 0
    ∧ (0 < (⟨["A"], [["1.00"]]⟩ : DFrame).headers.length
        ∧ ∃ m : ℚ, (premiumValues ((⟨["A"], [["1.00"]]⟩ : DFrame).col 0)).max? = some m
            ∧ ∀ j < (⟨["A"], [["1.00"]]⟩ : DFrame).headers.length,
                ∀ v ∈ premiumValues ((⟨["A"], [["1.00"]]⟩ : DFrame).col j), v ≤ m) := by
  have hc : cleanMoneyCell "1.00" = "1.00" := by decide
  have h1 : digitsToNat ['1'] = 1 := by decide
  have h2 : digitsToNat ['0', '0'] = 0 := by decide
  have ht : List.takeWhile Char.isDigit ['1', '.', '0', '0'] = ['1'] := by decide
  have hp : parseDecimal "1.00" = some 1 := by
    simp +decide only [parseDecimal, String.toList, ht]
    norm_num [ht, h1, h2]
  have he : endsWithDot00 "1.00" = true := by decide
  have hv : premiumCellValue "1.00" = some 1 := by
    rw [premiumCellValue, hc, hp]
    simp [he]
  have hcands : premiumCands ⟨["A"], [["1.00"]]⟩ = [("A", 1)] := by
    rw [premiumCands]
    simp +decide [DFrame.col, premiumValues, hv, List.max?]
  have hf : find_premium_column (⟨["A"], [["1.00"]]⟩ : DFrame) = some 0 := by
    rw [find_premium_column, hcands]
    simp +decide [pickMaxCand]
  exact ⟨by decide, hf, (find_premium_column_spec _ (by decide)).2.1 0 hf⟩

/-- C6: for a non-empty token set the surviving grid-rounded x-positions
are exactly those occurring in at least `max(2, rowCount * 0.3)` rows;
the merged result is strictly sorted; it is empty exactly when no
position meets the threshold; and every survivor is a nearest multiple
of 10 of some token's left edge (within 5 units). -/
theorem detect_columns_spec (ws : List Word) (hne : ws ≠ []) :
    (∀ x : ℤ, x ∈ survivorColumns (clusterRowsMean ws) ↔
        detectThreshold (clusterRowsMean ws) ≤ (xRowCount (clusterRowsMean ws) x : ℚ))
    ∧ List.Sorted (fun a b : ℚ => a < b) (detect_columns ws)
    ∧ (detect_columns ws = [] ↔
        ∀ x : ℤ, (xRowCount (clusterRowsMean ws) x : ℚ)
          < detectThreshold (clusterRowsMean ws))
    ∧ (∀ x ∈ survivorColumns (clusterRowsMean ws),
        ∃ w ∈ ws, x = roundedX w ∧ |(x : ℚ) - w.x0| ≤ 5) := by
  have hsurv_sorted : List.Pairwise (fun a b : ℤ => a < b)
      (survivorColumns (clusterRowsMean ws)) := by
    have hsorted : List.Sorted (fun a b : ℤ => a ≤ b)
        (survivorColumns (clusterRowsMean ws)) :=
      List.sorted_insertionSort _ _
    have hnodup : (survivorColumns (clusterRowsMean ws)).Nodup := by
      rw [survivorColumns]
      exact (List.perm_insertionSort _ _).nodup_iff.mpr
        (List.Nodup.filter _ (List.nodup_dedup _))
    exact List.Sorted.lt_of_le hsorted hnodup
  have hdet : detect_columns ws
      = mergeColumns (survivorColumns (clusterRowsMean ws)) := by
    rw [detect_columns, if_neg hne]
  refine ⟨survivor_mem _, ?_, ?_, ?_⟩
  · rw [hdet, mergeColumns]
    show List.Pairwise (fun a b : ℚ => a < b)
      (List.foldl (fun acc (x : ℤ) => mergeFold acc (x : ℚ)) []
        (survivorColumns (clusterRowsMean ws))).reverse
    rw [List.pairwise_reverse]
    exact mergeFold_pairwise _ [] List.Pairwise.nil hsurv_sorted (by simp)
  · rw [hdet]
    constructor
    · intro hnil x
      by_contra hx
      push_neg at hx
      have hmem : x ∈ survivorColumns (clusterRowsMean ws) :=
        (survivor_mem _ x).mpr hx
      have hsne : survivorColumns (clusterRowsMean ws) ≠ [] := by
        intro hc
        rw [hc] at hmem
        exact absurd hmem (List.not_mem_nil x)
      have := mergeFold_foldl_ne_nil (survivorColumns (clusterRowsMean ws)) []
        (fun _ => hsne)
      rw [mergeColumns] at hnil
      exact this (by simpa using hnil)
    · intro hall
      have hsnil : survivorColumns (clusterRowsMean ws) = [] := by
        rw [List.eq_nil_iff_forall_not_mem]
        intro x hx
        have := (survivor_mem _ x).mp hx
        exact absurd this (not_le.mpr (hall x))
      rw [mergeColumns, hsnil]
      rfl
  · intro x hx
    have hmem : x ∈ allRoundedXs (clusterRowsMean ws) := by
      rw [survivorColumns] at hx
      have := (List.perm_insertionSort _ _).mem_iff.mp hx
      exact (List.mem_filter.mp this).1
    rw [allRoundedXs, List.mem_dedup, List.mem_flatMap] at hmem
    obtain ⟨r, hr, hxr⟩ := hmem
    rw [rowRoundedXs, List.mem_dedup, List.mem_map] at hxr
    obtain ⟨w, hw, hxw⟩ := hxr
    exact ⟨w, clusterRowsMean_mem hr w hw, hxw.symm,
      by rw [← hxw]; exact roundedX_close w⟩

/-- Witness for C6: a single token set is non-empty and yields a sorted
(here empty, the threshold being 2) column list. -/
theorem detect_columns_spec_witness :
    ([⟨0, 0, 1, 1, "t"⟩] : List Word) ≠ []
    ∧ List.Sorted (fun a b : ℚ => a < b) (detect_columns [⟨0, 0, 1, 1, "t"⟩]) :=
  ⟨by simp, (detect_columns_spec _ (by simp)).2.1⟩

/-- C7 (amended): for a non-empty column list, cell `(r, c)` of
`build_table` is the single-space join — in ascending-vertical,
input-stable token order — of exactly those tokens of row `r` whose
first nearest column by absolute x-distance (from the left edge) is `c`
at distance strictly below 40; tokens whose nearest distance is 40 or
more are dropped. -/
theorem build_table_spec (ws : List Word) (cols : List ℚ) (hcne : cols ≠ []) :
    build_table ws cols
      = (List.insertionSort (fun a b : TRow => a.y ≤ b.y) (clusterRowsFixed ws)).map
          (fun r => (List.range cols.length).map (fun c =>
            String.intercalate " " ((r.words.filter
              (fun w => decide (firstNearestWithin cols w c))).map (·.text)))) := by
  rw [build_table]
  apply List.map_congr_left
  intro r _
  rw [rowCells]
  apply List.map_congr_left
  intro c hc
  have hclen : c < cols.length := List.mem_range.mp hc
  congr 1
  congr 1
  apply List.filter_congr
  intro w _
  rw [decide_eq_decide]
  obtain ⟨h1, h2, h3, h4⟩ := nearest_spec w.x0 cols hcne
  constructor
  · rintro ⟨hidx, hdist⟩
    subst hidx
    refine ⟨h1, ?_, ?_, ?_⟩
    · intro j hj
      rw [h2]
      exact h3 j hj
    · intro j hj
      rw [h2]
      exact h4 j hj
    · rw [h2]
      exact hdist
  · rintro ⟨hc1, hc2, hc3, hc4⟩
    have hdc : |w.x0 - cols.getD c 0| = nearestDist w.x0 cols := by
      apply le_antisymm
      · have := hc2 (nearestIdx w.x0 cols) h1
        rw [h2] at this
        exact this
      · exact h3 c hc1
    have heq : nearestIdx w.x0 cols = c := by
      rcases lt_trichotomy (nearestIdx w.x0 cols) c with hlt | heq | hgt
      · exfalso
        have hlt2 := hc3 (nearestIdx w.x0 cols) hlt
        rw [h2, ← hdc] at hlt2
        exact lt_irrefl _ hlt2
      · exact heq
      · exfalso
        have hlt2 := h4 c hgt
        rw [hdc] at hlt2
        exact lt_irrefl _ hlt2
    refine ⟨heq, ?_⟩
    rw [← hdc]
    exact hc4

/-- C7 counterexample: on `cexWords`/`cexCols` the code joins cell
`(0,0)` in vertical order (`"A B"`) while the claim's left-to-right join
gives `"B A"`, and the token at distance exactly 40 is dropped by the
code's strict bound though the claim ("does not exceed") keeps it. -/
theorem build_table_left_to_right_cex :
    build_table cexWords cexCols = [["A B", ""]]
    ∧ buildTableClaimed cexWords cexCols = [["B A", "C"]]
    ∧ ([["A B", ""]] : List (List String)) ≠ [["B A", "C"]] := by
  have hw_sorted : sortByY cexWords
      = [⟨5, 10, 6, 10, "A"⟩, ⟨140, 10, 141, 10, "C"⟩, ⟨0, 21 / 2, 1, 21 / 2, "B"⟩] := by
    norm_num [sortByY, cexWords, List.insertionSort, List.orderedInsert]
  have hrows : clusterRowsFixed cexWords
      = [⟨10, [⟨5, 10, 6, 10, "A"⟩, ⟨140, 10, 141, 10, "C"⟩,
          ⟨0, 21 / 2, 1, 21 / 2, "B"⟩]⟩] := by
    rw [clusterRowsFixed, hw_sorted]
    have habs : |(1 : ℚ) / 2| = 1 / 2 := abs_of_nonneg (by norm_num)
    norm_num [rowInsertFixed, wCenter, habs]
  have hsort1 : List.insertionSort (fun a b : TRow => a.y ≤ b.y)
      [(⟨10, [⟨5, 10, 6, 10, "A"⟩, ⟨140, 10, 141, 10, "C"⟩,
          ⟨0, 21 / 2, 1, 21 / 2, "B"⟩]⟩ : TRow)]
      = [⟨10, [⟨5, 10, 6, 10, "A"⟩, ⟨140, 10, 141, 10, "C"⟩,
          ⟨0, 21 / 2, 1, 21 / 2, "B"⟩]⟩] := by
    simp [List.insertionSort, List.orderedInsert]
  have hm5 : ((cexCols).map (fun c => |(5 : ℚ) - c|)).min? = some 5 := by
    norm_num [cexCols, List.min?, min_def]
  have hn5 : nearestIdx 5 cexCols = 0 := by
    unfold nearestIdx
    rw [hm5]
    show ((cexCols).map (fun c => |(5 : ℚ) - c|)).indexOf 5 = 0
    norm_num [cexCols, List.indexOf_cons]
  have hd5 : nearestDist 5 cexCols = 5 := by
    unfold nearestDist
    rw [hm5]
  have hm0 : ((cexCols).map (fun c => |(0 : ℚ) - c|)).min? = some 0 := by
    norm_num [cexCols, List.min?, min_def]
  have hn0 : nearestIdx 0 cexCols = 0 := by
    unfold nearestIdx
    rw [hm0]
    show ((cexCols).map (fun c => |(0 : ℚ) - c|)).indexOf 0 = 0
    norm_num [cexCols, List.indexOf_cons]
  have hd0 : nearestDist 0 cexCols = 0 := by
    unfold nearestDist
    rw [hm0]
  have hm140 : ((cexCols).map (fun c => |(140 : ℚ) - c|)).min? = some 40 := by
    norm_num [cexCols, List.min?, min_def]
  have hbe : ((140 : ℚ) == 40) = false := beq_eq_false_iff_ne.mpr (by norm_num)
  have hn140 : nearestIdx 140 cexCols = 1 := by
    unfold nearestIdx
    rw [hm140]
    show ((cexCols).map (fun c => |(140 : ℚ) - c|)).indexOf 40 = 1
    norm_num [cexCols, List.indexOf_cons, hbe]
  have hd140 : nearestDist 140 cexCols = 40 := by
    unfold nearestDist
    rw [hm140]
  have hrange : List.range 2 = [0, 1] := rfl
  have hint1 : String.intercalate " " ["A", "B"] = "A B" := by decide
  have hint2 : String.intercalate " " ["B", "A"] = "B A" := by decide
  have hint3 : String.intercalate " " ["C"] = "C" := by decide
  have hint0 : String.intercalate " " ([] : List String) = "" := by decide
  refine ⟨?_, ?_, by decide⟩
  · rw [build_table, hrows, hsort1, List.map_cons, List.map_nil, rowCells]
    have hlen : cexCols.length = 2 := by simp [cexCols]
    rw [hlen, hrange]
    norm_num [hn5, hd5, hn0, hd0, hn140, hd140, hint1, hint0]
  · rw [buildTableClaimed, hrows, hsort1, List.map_cons, List.map_nil]
    have hlen : cexCols.length = 2 := by simp [cexCols]
    rw [hlen, hrange]
    have hxsort : List.insertionSort (fun a b : Word => a.x0 ≤ b.x0)
        [⟨5, 10, 6, 10, "A"⟩, ⟨140, 10, 141, 10, "C"⟩, ⟨0, 21 / 2, 1, 21 / 2, "B"⟩]
        = [⟨0, 21 / 2, 1, 21 / 2, "B"⟩, ⟨5, 10, 6, 10, "A"⟩, ⟨140, 10, 141, 10, "C"⟩] := by
      norm_num [List.insertionSort, List.orderedInsert]
    rw [hxsort]
    norm_num [hn5, hd5, hn0, hd0, hn140, hd140, hint2, hint3]

/-- Witness for C7 (amended): the sample columns are non-empty and the
characterisation applies to the sample tokens. -/
theorem build_table_spec_witness :
    cexCols ≠ []
    ∧ build_table cexWords cexCols
      = (List.insertionSort (fun a b : TRow => a.y ≤ b.y) (clusterRowsFixed cexWords)).map
          (fun r => (List.range cexCols.length).map (fun c =>
            String.intercalate " " ((r.words.filter
              (fun w => decide (firstNearestWithin cexCols w c))).map (·.text)))) :=
  ⟨by simp [cexCols], build_table_spec cexWords cexCols (by simp [cexCols])⟩

/-- C8 counterexample: tokens with centers 0, 4 and 6.  The
`detect_columns` clusterer (running-mean update) puts all three in one
row (after absorbing 4 the mean drifts to 2, so 6 is within tolerance),
while the `build_table` clusterer (no update) starts a new row for 6 —
the two partitions differ. -/
theorem row_partition_cex :
    (clusterRowsMean [⟨0, 0, 0, 0, "a"⟩, ⟨0, 4, 0, 4, "b"⟩, ⟨0, 6, 0, 6, "c"⟩]).map
        (·.words)
      = [[⟨0, 0, 0, 0, "a"⟩, ⟨0, 4, 0, 4, "b"⟩, ⟨0, 6, 0, 6, "c"⟩]]
    ∧ (clusterRowsFixed [⟨0, 0, 0, 0, "a"⟩, ⟨0, 4, 0, 4, "b"⟩, ⟨0, 6, 0, 6, "c"⟩]).map
        (·.words)
      = [[⟨0, 0, 0, 0, "a"⟩, ⟨0, 4, 0, 4, "b"⟩], [⟨0, 6, 0, 6, "c"⟩]]
    ∧ ([[(⟨0, 0, 0, 0, "a"⟩ : Word), ⟨0, 4, 0, 4, "b"⟩, ⟨0, 6, 0, 6, "c"⟩]]
        ≠ [[⟨0, 0, 0, 0, "a"⟩, ⟨0, 4, 0, 4, "b"⟩], [⟨0, 6, 0, 6, "c"⟩]]) := by
  have hsorted : sortByY [(⟨0, 0, 0, 0, "a"⟩ : Word), ⟨0, 4, 0, 4, "b"⟩, ⟨0, 6, 0, 6, "c"⟩]
      = [⟨0, 0, 0, 0, "a"⟩, ⟨0, 4, 0, 4, "b"⟩, ⟨0, 6, 0, 6, "c"⟩] := by
    norm_num [sortByY, List.insertionSort, List.orderedInsert]
  have habs4 : |(4 : ℚ)| = 4 := abs_of_nonneg (by norm_num)
  refine ⟨?_, ?_, by decide⟩
  · rw [clusterRowsMean, hsorted]
    norm_num [rowInsertMean, wCenter, habs4]
  · rw [clusterRowsFixed, hsorted]
    norm_num [rowInsertFixed, wCenter, habs4]

/-- C8 (amended): build_table re-clusters rows by the same greedy
single-pass attachment rule except that it omits the running-mean
update, so the partitions can differ under drift; whenever any two token
centers are either equal or more than the tolerance 4 apart (no drift
possible), the two clusterings produce identical rows. -/
theorem row_partition_spec (ws : List Word)
    (h : ∀ w ∈ ws, ∀ w' ∈ ws,
      wCenter w = wCenter w' ∨ 4 < |wCenter w - wCenter w'|) :
    clusterRowsMean ws = clusterRowsFixed ws := by
  rw [clusterRowsMean, clusterRowsFixed]
  exact clusterRows_agree_aux h (sortByY ws)
    (fun x hx => (List.perm_insertionSort _ ws).mem_iff.mp hx) [] (by simp)

/-- Witness for C8 (amended): two tokens with centers 0 and 10 (farther
than the tolerance apart) yield identical partitions. -/
theorem row_partition_spec_witness :
    (∀ w ∈ ([⟨0, 0, 0, 0, "a"⟩, ⟨0, 10, 0, 10, "b"⟩] : List Word),
      ∀ w' ∈ ([⟨0, 0, 0, 0, "a"⟩, ⟨0, 10, 0, 10, "b"⟩] : List Word),
        wCenter w = wCenter w' ∨ 4 < |wCenter w - wCenter w'|)
    ∧ clusterRowsMean [⟨0, 0, 0, 0, "a"⟩, ⟨0, 10, 0, 10, "b"⟩]
        = clusterRowsFixed [⟨0, 0, 0, 0, "a"⟩, ⟨0, 10, 0, 10, "b"⟩] := by
  have habs10 : |(-10 : ℚ)| = 10 := by
    rw [abs_neg]
    exact abs_of_nonneg (by norm_num)
  have habs10' : |(10 : ℚ)| = 10 := abs_of_nonneg (by norm_num)
  have hh : ∀ w ∈ ([⟨0, 0, 0, 0, "a"⟩, ⟨0, 10, 0, 10, "b"⟩] : List Word),
      ∀ w' ∈ ([⟨0, 0, 0, 0, "a"⟩, ⟨0, 10, 0, 10, "b"⟩] : List Word),
        wCenter w = wCenter w' ∨ 4 < |wCenter w - wCenter w'| := by
    intro w hw w' hw'
    rcases List.mem_cons.mp hw with rfl | hw2
    · rcases List.mem_cons.mp hw' with rfl | hw2'
      · exact Or.inl rfl
      · rw [List.mem_singleton.mp hw2']
        right
        norm_num [wCenter, habs10]
    · rw [List.mem_singleton.mp hw2]
      rcases List.mem_cons.mp hw' with rfl | hw2'
      · right
        norm_num [wCenter, habs10']
      · rw [List.mem_singleton.mp hw2']
        exact Or.inl rfl
  exact ⟨hh, row_partition_spec _ hh⟩

/-- C9 counterexample: a folder with one readable and one unreadable
document — the run aborts with the propagated error instead of skipping
the unreadable document and continuing. -/
theorem unreadable_aborts_run_cex :
    find_matching_pdfs_by_policy
        [⟨"good.pdf", .ok [⟨"good.pdf", 1, "ABC1234", 5⟩]⟩,
         ⟨"bad.pdf", .error "cannot open broken document"⟩]
      = .error "cannot open broken document" := by rfl

/-- C9 (amended): nothing in the reconciliation path catches a
document-reading failure: when every document reads, the run succeeds;
the first raising document aborts the whole run with its error; and only
documents whose extraction yields no records are excluded from pairing
while processing continues. -/
theorem extraction_failure_spec :
    (∀ docs : List PDFDoc, (∀ d ∈ docs, ∃ rs, d.content = .ok rs) →
        ∃ ps, find_matching_pdfs_by_policy docs = .ok ps)
    ∧ (∀ (docs₁ docs₂ : List PDFDoc) (d : PDFDoc) (e : String),
        (∀ d' ∈ docs₁, ∃ rs, d'.content = .ok rs) → d.content = .error e →
        find_matching_pdfs_by_policy (docs₁ ++ d :: docs₂) = .error e)
    ∧ (∀ docs : List PDFDoc,
        find_matching_pdfs_by_policy docs
          = find_matching_pdfs_by_policy (docs.filter keepsRecords)) := by
  have hok : ∀ docs : List PDFDoc, (∀ d ∈ docs, ∃ rs, d.content = .ok rs) →
      ∃ es, pdfPolicies docs = .ok es := by
    intro docs
    induction docs with
    | nil => intro _; exact ⟨[], rfl⟩
    | cons d ds ih =>
      intro hall
      obtain ⟨rs, hrs⟩ := hall d (List.mem_cons_self d ds)
      obtain ⟨es, hes⟩ := ih (fun d' hd' => hall d' (List.mem_cons_of_mem d hd'))
      refine ⟨if rs = [] then es
        else (d.name, (rs.map (·.policy)).dedup) :: es, ?_⟩
      rw [pdfPolicies, extractOutcome, hrs, hes]
  have herr : ∀ (docs₁ docs₂ : List PDFDoc) (d : PDFDoc) (e : String),
      (∀ d' ∈ docs₁, ∃ rs, d'.content = .ok rs) → d.content = .error e →
      pdfPolicies (docs₁ ++ d :: docs₂) = .error e := by
    intro docs₁
    induction docs₁ with
    | nil =>
      intro docs₂ d e _ hde
      rw [List.nil_append, pdfPolicies, extractOutcome, hde]
    | cons d' l ih =>
      intro docs₂ d e hall hde
      obtain ⟨rs, hrs⟩ := hall d' (List.mem_cons_self d' l)
      have hrec := ih docs₂ d e (fun x hx => hall x (List.mem_cons_of_mem d' hx)) hde
      rw [List.cons_append, pdfPolicies, extractOutcome, hrs, hrec]
  have hfilter : ∀ docs : List PDFDoc,
      pdfPolicies docs = pdfPolicies (docs.filter keepsRecords) := by
    intro docs
    induction docs with
    | nil => rfl
    | cons d ds ih =>
      cases hc : d.content with
      | error e =>
        have hkeep : keepsRecords d = true := by rw [keepsRecords, hc]
        rw [List.filter_cons, if_pos hkeep, pdfPolicies, pdfPolicies,
          extractOutcome, hc]
      | ok rs =>
        cases hrs : rs.isEmpty with
        | true =>
          obtain rfl : rs = [] := List.isEmpty_iff.mp hrs
          have hdrop : keepsRecords d = false := by rw [keepsRecords, hc]; rfl
          rw [List.filter_cons, if_neg (by rw [hdrop]; exact Bool.false_ne_true),
            ← ih, pdfPolicies, extractOutcome, hc]
          cases hds : pdfPolicies ds with
          | error e => rfl
          | ok rest => simp
        | false =>
          have hne : rs ≠ [] := by
            intro h
            rw [h] at hrs
            exact Bool.noConfusion hrs
          have hkeep : keepsRecords d = true := by
            rw [keepsRecords, hc]
            show (!rs.isEmpty) = true
            rw [hrs]
            rfl
          rw [List.filter_cons, if_pos hkeep, pdfPolicies, pdfPolicies,
            extractOutcome, hc, ← ih]
  refine ⟨?_, ?_, ?_⟩
  · intro docs hall
    obtain ⟨es, hes⟩ := hok docs hall
    exact ⟨pairsOf es, by rw [find_matching_pdfs_by_policy, hes]⟩
  · intro docs₁ docs₂ d e hall hde
    rw [find_matching_pdfs_by_policy, herr docs₁ docs₂ d e hall hde]
  · intro docs
    rw [find_matching_pdfs_by_policy, find_matching_pdfs_by_policy, ← hfilter]

/-- Witness for C9 (amended): an all-readable folder succeeds; prefixing
a readable document to an unreadable one aborts with the latter's error. -/
theorem extraction_failure_spec_witness :
    ((⟨"good.pdf", .ok [⟨"good.pdf", 1, "ABC1234", 5⟩]⟩ : PDFDoc).content
        = .ok [⟨"good.pdf", 1, "ABC1234", 5⟩])
    ∧ ((⟨"bad.pdf", .error "io failure"⟩ : PDFDoc).content = .error "io failure")
    ∧ (∃ ps, find_matching_pdfs_by_policy
        [⟨"good.pdf", .ok [⟨"good.pdf", 1, "ABC1234", 5⟩]⟩] = .ok ps)
    ∧ find_matching_pdfs_by_policy
        [⟨"good.pdf", .ok [⟨"good.pdf", 1, "ABC1234", 5⟩]⟩,
         ⟨"bad.pdf", .error "io failure"⟩]
      = .error "io failure" :=
  ⟨rfl, rfl,
    extraction_failure_spec.1 [⟨"good.pdf", .ok [⟨"good.pdf", 1, "ABC1234", 5⟩]⟩]
      (by intro d hd
          rcases List.mem_singleton.mp hd with rfl
          exact ⟨[⟨"good.pdf", 1, "ABC1234", 5⟩], rfl⟩),
    extraction_failure_spec.2.1 [⟨"good.pdf", .ok [⟨"good.pdf", 1, "ABC1234", 5⟩]⟩] []
      ⟨"bad.pdf", .error "io failure"⟩ "io failure"
      (by intro d hd
          rcases List.mem_singleton.mp hd with rfl
          exact ⟨[⟨"good.pdf", 1, "ABC1234", 5⟩], rfl⟩)
      rfl⟩

/-- C10: a row whose policy cell cleans to a policy number but whose
premium cell does not parse is kept with premium `0`; a kept zero-premium
record contributes nothing to the policy's premium total; and an
aggregate row with zero premium total is never flagged. -/
theorem zero_premium_spec :
    (∀ (isIntact : Bool) (pdf : String) (page pi pj : ℕ) (row : List String) (p : String),
        clean_policy isIntact (row.getD pi "") = some p →
        parseDecimal (pyStrip (stripMoney (row.getD pj ""))) = none →
        rowToRecord isIntact pdf page pi pj row = some ⟨pdf, page, p, 0⟩)
    ∧ (∀ (rs : List PolicyRecord) (r : PolicyRecord), r.premium = 0 →
        premiumTotal (rs ++ [r]) r.policy = premiumTotal rs r.policy)
    ∧ (∀ (df : List Agg) (a : Agg), a ∈ df → a.premium = 0 →
        (df.map (·.policy)).Nodup → a.policy ∉ unbalancedPolicies df) := by
  refine ⟨?_, ?_, ?_⟩
  · intro ii pdf page pi pj row p hp hprem
    unfold rowToRecord
    rw [hp]
    simp only [parsePremiumField, hprem]
    rfl
  · intro rs r h0
    simp [premiumTotal, h0]
  · intro df a ha h0 hnd hmem
    rcases List.mem_map.mp hmem with ⟨b, hb, hbp⟩
    have hbdf : b ∈ df := (List.mem_filter.mp hb).1
    have hcond := (List.mem_filter.mp hb).2
    have hba : b = a := List.inj_on_of_nodup_map hnd hbdf ha hbp
    subst hba
    simp [h0] at hcond

/-- Witness for C10: the premium cell `"N/A"` does not parse and the row
is kept at premium `0`; a zero-premium aggregate is not flagged. -/
theorem zero_premium_spec_witness :
    clean_policy false "ABC1234" = some "ABC1234"
    ∧ parseDecimal (pyStrip (stripMoney "N/A")) = none
    ∧ rowToRecord false "A.pdf" 1 0 1 ["ABC1234", "N/A"] = some ⟨"A.pdf", 1, "ABC1234", 0⟩
    ∧ (⟨"P0", 0, false⟩ : Agg) ∈ ([⟨"P0", 0, false⟩] : List Agg)
    ∧ "P0" ∉ unbalancedPolicies [⟨"P0", 0, false⟩] :=
  ⟨by decide, by decide,
    zero_premium_spec.1 false "A.pdf" 1 0 1 ["ABC1234", "N/A"] "ABC1234"
      (by decide) (by decide),
    by decide,
    zero_premium_spec.2.2 [⟨"P0", 0, false⟩] ⟨"P0", 0, false⟩
      (by decide) (by decide) (by decide)⟩

end Reconciller
